import Mathlib

/-!
# Synthesis engine of `diy-synth-ldn-2015` (`src/synth/synth.c`)

A shallow embedding of the oscillator bank, the ADSR envelope, the voice pool,
the delay bus and the per-sample render loop, followed by theorems about them.

Conventions of the embedding:

* `float` values are exact rationals (`ℚ`); the theorems are statements about
  exact arithmetic.
* `int16_t` values are integers, reduced with `wrap16` wherever the C code
  stores into an `int16_t`.
* Pointers into the delay buffer are element offsets from `buf`; a load or a
  store outside the block makes the operation return `none`.
* `synth/synth.h` is not part of the sources: the constants, tables and
  helpers it declares are fields of `SynthConfig` or small definitions whose
  comment says so.
-/

namespace DiySynth

/-! ## Configuration taken from the missing header -/

/-- Constants, tables and platform helpers that `synth.c` uses but that are
declared in `synth/synth.h` and its includes. They are parameters of the
model. `WTABLE_LOOKUP tbl phase` is the table read at a phase,
`NORM_RANDF st` draws one normalised random value from the generator state
`st` and gives the next state, `SYNTH_USE_DELAY` says whether the delay line
is compiled in. -/
structure SynthConfig where
  SYNTH_POLYPHONY : Nat
  ADSR_SCALE : ℚ
  TAU : ℚ
  PI : ℚ
  INV_PI : ℚ
  INV_HALF_PI : ℚ
  wtable_sin : List ℚ
  WTABLE_LOOKUP : List ℚ → ℚ → ℚ
  FREQ_TO_RAD : ℚ → ℚ
  NORM_RANDF : Nat → ℚ × Nat
  tinymt32_init : Nat → Nat
  SYNTH_USE_DELAY : Bool

/-! ## Data model -/

/-- Waveform function pointer `OscFn`, as a closed enumeration of the
functions of `synth.c` it can point to. -/
inductive OscFn where
  | sin | sin_dc | rect | rect_phase | rect_dc | saw | saw_dc | tri | tri_dc
  | wtable_morph | noise | noise_dc | nop
  deriving DecidableEq, Repr

/-- Oscillator state `SynthOsc`. -/
structure SynthOsc where
  fn : OscFn
  phase : ℚ
  freq : ℚ
  amp : ℚ
  dcOffset : ℚ
  wtable1 : List ℚ
  wtable2 : List ℚ
  deriving DecidableEq, Repr

/-- Envelope phase. `IDLE` is the zero enumerator: the renderer tests
`if (env->phase)` to skip idle voices. -/
inductive ADSRPhase where
  | IDLE | ATTACK | DECAY | SUSTAIN | RELEASE
  deriving DecidableEq, Repr

/-- Envelope state `ADSR`. -/
structure ADSR where
  attackRate : ℚ
  decayRate : ℚ
  releaseRate : ℚ
  attackGain : ℚ
  sustainGain : ℚ
  currGain : ℚ
  phase : ADSRPhase
  deriving DecidableEq, Repr

/-- One polyphonic slot `SynthVoice`; `osc0` and `osc1` are `osc[0]` and
`osc[1]`. -/
structure SynthVoice where
  osc0 : SynthOsc
  osc1 : SynthOsc
  lfoPitch : SynthOsc
  lfoMorph : SynthOsc
  env : ADSR
  flags : Nat
  deriving DecidableEq, Repr

/-- Delay bus `SynthFXBus`. `buf` is the heap block, `readPtr` and `writePtr`
are element offsets from its start. -/
structure SynthFXBus where
  buf : List Int
  len : Nat
  readPos : Nat
  writePos : Nat
  readPtr : Nat
  writePtr : Nat
  decay : Nat
  deriving DecidableEq, Repr

/-- Top-level context `Synth`; `bus` is `bus[0]`. -/
structure Synth where
  voices : List SynthVoice
  lfoFilter : SynthOsc
  lfoEnvMod : SynthOsc
  bus : SynthFXBus
  nextVoice : Nat
  deriving DecidableEq, Repr

/-! ## Oscillators -/

/-- Modelled from the spec: `truncPhase` is declared in the missing header.
The spec describes it as the wrap of the phase into `[0, 2π)` ("wraparound,
not saturation"); here it is the representative of the phase modulo `TAU`. -/
def truncPhase (cfg : SynthConfig) (phase : ℚ) : ℚ :=
  phase - cfg.TAU * ⌊phase / cfg.TAU⌋

/-- Modelled from the spec: `stepf x edge y1 y2` from the missing header, the
step function that yields `y1` below the edge and `y2` from the edge on. -/
def stepf (x edge y1 y2 : ℚ) : ℚ := if x < edge then y1 else y2

/-- Modelled from the spec: `maddf a b c` from the missing header, multiply
and add. -/
def maddf (a b c : ℚ) : ℚ := a * b + c

/-- Modelled from the spec: `mixf a b t` from the missing header, linear
interpolation between `a` and `b`. -/
def mixf (a b t : ℚ) : ℚ := a + (b - a) * t

/-- Source `synth_osc_init`: the wavetable pointers are left as they are. -/
def synth_osc_init (cfg : SynthConfig) (osc : SynthOsc) (fn : OscFn)
    (gain phase freq dc : ℚ) : SynthOsc :=
  { osc with fn := fn, phase := phase, freq := cfg.FREQ_TO_RAD freq, amp := gain,
             dcOffset := dc }

/-- Source `synth_osc_set_wavetables`. -/
def synth_osc_set_wavetables (osc : SynthOsc) (tbl1 tbl2 : List ℚ) : SynthOsc :=
  { osc with wtable1 := tbl1, wtable2 := tbl2 }

/-- Source `synth_osc_sin`. -/
def synth_osc_sin (cfg : SynthConfig) (osc : SynthOsc) (lfo _lfo2 : ℚ) : ℚ × SynthOsc :=
  let phase := truncPhase cfg (osc.phase + osc.freq + lfo)
  (cfg.WTABLE_LOOKUP cfg.wtable_sin phase * osc.amp, { osc with phase := phase })

/-- Source `synth_osc_sin_dc`. -/
def synth_osc_sin_dc (cfg : SynthConfig) (osc : SynthOsc) (lfo _lfo2 : ℚ) : ℚ × SynthOsc :=
  let phase := truncPhase cfg (osc.phase + osc.freq + lfo)
  (maddf (cfg.WTABLE_LOOKUP cfg.wtable_sin phase) osc.amp osc.dcOffset,
   { osc with phase := phase })

/-- Source `synth_osc_rect`. -/
def synth_osc_rect (cfg : SynthConfig) (osc : SynthOsc) (lfo _lfo2 : ℚ) : ℚ × SynthOsc :=
  let phase := truncPhase cfg (osc.phase + osc.freq + lfo)
  (stepf phase cfg.PI osc.amp (-osc.amp), { osc with phase := phase })

/-- Source `synth_osc_rect_phase`. -/
def synth_osc_rect_phase (cfg : SynthConfig) (osc : SynthOsc) (lfo lfo2 : ℚ) : ℚ × SynthOsc :=
  let phase := truncPhase cfg (osc.phase + osc.freq + lfo)
  (stepf phase (cfg.PI + lfo2) osc.amp (-osc.amp), { osc with phase := phase })

/-- Source `synth_osc_rect_dc`. -/
def synth_osc_rect_dc (cfg : SynthConfig) (osc : SynthOsc) (lfo _lfo2 : ℚ) : ℚ × SynthOsc :=
  let phase := truncPhase cfg (osc.phase + osc.freq + lfo)
  (osc.dcOffset + stepf phase cfg.PI osc.amp (-osc.amp), { osc with phase := phase })

/-- Source `synth_osc_saw`. -/
def synth_osc_saw (cfg : SynthConfig) (osc : SynthOsc) (lfo _lfo2 : ℚ) : ℚ × SynthOsc :=
  let phase := truncPhase cfg (osc.phase + osc.freq + lfo)
  ((phase * cfg.INV_PI - 1) * osc.amp, { osc with phase := phase })

/-- Source `synth_osc_saw_dc`. -/
def synth_osc_saw_dc (cfg : SynthConfig) (osc : SynthOsc) (lfo _lfo2 : ℚ) : ℚ × SynthOsc :=
  let phase := truncPhase cfg (osc.phase + osc.freq + lfo)
  (maddf (phase * cfg.INV_PI - 1) osc.amp osc.dcOffset, { osc with phase := phase })

/-- Source `synth_osc_tri`. -/
def synth_osc_tri (cfg : SynthConfig) (osc : SynthOsc) (lfo _lfo2 : ℚ) : ℚ × SynthOsc :=
  let phase := truncPhase cfg (osc.phase + osc.freq + lfo)
  let x := 2 - phase * cfg.INV_HALF_PI
  let x := 1 - stepf x 0 (-x) x
  (if x > -1 then x * osc.amp else -osc.amp, { osc with phase := phase })

/-- Source `synth_osc_tri_dc`. -/
def synth_osc_tri_dc (cfg : SynthConfig) (osc : SynthOsc) (lfo _lfo2 : ℚ) : ℚ × SynthOsc :=
  let phase := truncPhase cfg (osc.phase + osc.freq + lfo)
  let x := 2 - phase * cfg.INV_HALF_PI
  let x := 1 - stepf x 0 (-x) x
  (if x > -1 then maddf x osc.amp osc.dcOffset else osc.dcOffset - osc.amp,
   { osc with phase := phase })

/-- Source `synth_osc_wtable_morph`. The second `truncPhase(phase);` statement
discards its result. -/
def synth_osc_wtable_morph (cfg : SynthConfig) (osc : SynthOsc) (lfo morph : ℚ) :
    ℚ × SynthOsc :=
  let phase := truncPhase cfg (osc.phase + osc.freq + lfo)
  let _discarded := truncPhase cfg phase
  (mixf (cfg.WTABLE_LOOKUP osc.wtable1 phase) (cfg.WTABLE_LOOKUP osc.wtable2 phase) morph
     * osc.amp,
   { osc with phase := phase })

/-- Source `synth_osc_noise`: draws from the file-level generator `synthRNG`,
whose state is threaded explicitly. -/
def synth_osc_noise (cfg : SynthConfig) (osc : SynthOsc) (_lfo _lfo2 : ℚ) (rng : Nat) :
    ℚ × SynthOsc × Nat :=
  ((cfg.NORM_RANDF rng).1 * osc.amp, osc, (cfg.NORM_RANDF rng).2)

/-- Source `synth_osc_noise_dc`. -/
def synth_osc_noise_dc (cfg : SynthConfig) (osc : SynthOsc) (_lfo _lfo2 : ℚ) (rng : Nat) :
    ℚ × SynthOsc × Nat :=
  (osc.dcOffset + (cfg.NORM_RANDF rng).1 * osc.amp, osc, (cfg.NORM_RANDF rng).2)

/-- Source `synth_osc_nop`. -/
def synth_osc_nop (osc : SynthOsc) (_lfo _lfo2 : ℚ) : ℚ × SynthOsc :=
  (osc.dcOffset, osc)

/-- The indirect call `fn(osc, lfo, lfo2)` through a given function pointer:
sample, updated oscillator, updated generator state. -/
def osc_apply (cfg : SynthConfig) (fn : OscFn) (osc : SynthOsc) (lfo lfo2 : ℚ) (rng : Nat) :
    ℚ × SynthOsc × Nat :=
  match fn with
  | .sin => ((synth_osc_sin cfg osc lfo lfo2).1, (synth_osc_sin cfg osc lfo lfo2).2, rng)
  | .sin_dc => ((synth_osc_sin_dc cfg osc lfo lfo2).1, (synth_osc_sin_dc cfg osc lfo lfo2).2, rng)
  | .rect => ((synth_osc_rect cfg osc lfo lfo2).1, (synth_osc_rect cfg osc lfo lfo2).2, rng)
  | .rect_phase =>
    ((synth_osc_rect_phase cfg osc lfo lfo2).1, (synth_osc_rect_phase cfg osc lfo lfo2).2, rng)
  | .rect_dc =>
    ((synth_osc_rect_dc cfg osc lfo lfo2).1, (synth_osc_rect_dc cfg osc lfo lfo2).2, rng)
  | .saw => ((synth_osc_saw cfg osc lfo lfo2).1, (synth_osc_saw cfg osc lfo lfo2).2, rng)
  | .saw_dc => ((synth_osc_saw_dc cfg osc lfo lfo2).1, (synth_osc_saw_dc cfg osc lfo lfo2).2, rng)
  | .tri => ((synth_osc_tri cfg osc lfo lfo2).1, (synth_osc_tri cfg osc lfo lfo2).2, rng)
  | .tri_dc => ((synth_osc_tri_dc cfg osc lfo lfo2).1, (synth_osc_tri_dc cfg osc lfo lfo2).2, rng)
  | .wtable_morph =>
    ((synth_osc_wtable_morph cfg osc lfo lfo2).1, (synth_osc_wtable_morph cfg osc lfo lfo2).2,
     rng)
  | .noise => synth_osc_noise cfg osc lfo lfo2 rng
  | .noise_dc => synth_osc_noise_dc cfg osc lfo lfo2 rng
  | .nop => ((synth_osc_nop osc lfo lfo2).1, (synth_osc_nop osc lfo lfo2).2, rng)

/-- The call `osc->fn(osc, lfo, lfo2)` of the render loop. -/
def osc_call (cfg : SynthConfig) (osc : SynthOsc) (lfo lfo2 : ℚ) (rng : Nat) :
    ℚ × SynthOsc × Nat :=
  osc_apply cfg osc.fn osc lfo lfo2 rng

/-! ## Envelope -/

/-- Source `synth_adsr_init`. -/
def synth_adsr_init (cfg : SynthConfig)
    (attRate decayRate releaseRate attGain sustainGain : ℚ) : ADSR :=
  { attackRate := attRate * cfg.ADSR_SCALE
    decayRate := decayRate * cfg.ADSR_SCALE
    releaseRate := releaseRate * cfg.ADSR_SCALE
    attackGain := attGain * cfg.ADSR_SCALE
    sustainGain := sustainGain * cfg.ADSR_SCALE
    phase := .ATTACK
    currGain := 0 }

/-- Source `synth_adsr_update`: the returned gain and the updated envelope. -/
def synth_adsr_update (env : ADSR) (envMod : ℚ) : ℚ × ADSR :=
  match env.phase with
  | .ATTACK =>
    if env.currGain ≥ env.attackGain then
      (env.currGain, { env with phase := .DECAY })
    else
      (env.currGain + env.attackRate * envMod,
       { env with currGain := env.currGain + env.attackRate * envMod })
  | .DECAY =>
    if env.currGain > env.sustainGain then
      (env.currGain - env.decayRate * envMod,
       { env with currGain := env.currGain - env.decayRate * envMod })
    else
      (env.currGain, { env with phase := .RELEASE })
  | .SUSTAIN => (env.sustainGain, env)
  | .RELEASE =>
    if env.currGain > 0 then
      if env.currGain - env.releaseRate < 0 then
        (0, { env with currGain := 0 })
      else
        (env.currGain - env.releaseRate, { env with currGain := env.currGain - env.releaseRate })
    else
      (env.currGain, { env with phase := .IDLE })
  | .IDLE => (env.currGain, env)

/-- The envelope after a sequence of `synth_adsr_update` calls, one per
element of `mods` (the `envMod` argument of each call, in order). -/
def adsr_run (env : ADSR) (mods : List ℚ) : ADSR :=
  mods.foldl (fun e m => (synth_adsr_update e m).2) env

/-! ## Voice pool -/

/-- Source `synth_voice_init`. -/
def synth_voice_init (cfg : SynthConfig) (voice : SynthVoice) (flags : Nat) : SynthVoice :=
  { voice with
    lfoPitch := synth_osc_init cfg voice.lfoPitch .nop 0 0 0 0
    lfoMorph := synth_osc_init cfg voice.lfoMorph .nop 0 0 0 0
    flags := flags }

/-- Source `synth_new_voice`: the slot index of the returned voice and the
updated synth; `none` when the cursor is outside the voice array. The cursor
never exceeds `SYNTH_POLYPHONY`, so its increment does not wrap as long as
that constant fits the integer type of the field. -/
def synth_new_voice (cfg : SynthConfig) (synth : Synth) : Option (Nat × Synth) :=
  match synth.voices[synth.nextVoice]? with
  | none => none
  | some voice =>
    let voices := synth.voices.set synth.nextVoice (synth_voice_init cfg voice 0)
    let next := synth.nextVoice + 1
    some (synth.nextVoice,
          { synth with voices := voices,
                       nextVoice := if next = cfg.SYNTH_POLYPHONY then 0 else next })

/-! ## 16-bit arithmetic -/

/-- Value of an integer after it is stored into an `int16_t`: reduction modulo
`2^16` into `[-32768, 32767]`. -/
def wrap16 (x : Int) : Int := (x + 32768) % 65536 - 32768

/-- Modelled from the spec: `clamp16` is declared in the missing header; the
spec describes it as saturation to the signed 16-bit range. -/
def clamp16 (x : Int) : Int := max (-32768) (min 32767 x)

/-- The cast `(int16_t) x` of a float: truncation toward zero, then storage
into 16 bits. -/
def float_to_int16 (x : ℚ) : Int := wrap16 (if 0 ≤ x then ⌊x⌋ else ⌈x⌉)

/-! ## Delay bus -/

/-- Source `synth_bus_init`: `buf` is the caller's block, whose first `len`
elements `memset` clears; `none` when the block is shorter than `len`. The
release of a previous block has no effect on the modelled state. -/
def synth_bus_init (_bus : SynthFXBus) (buf : List Int) (len : Nat) (decay : Nat) :
    Option SynthFXBus :=
  if len ≤ buf.length then
    some { buf := List.replicate len 0 ++ buf.drop len
           len := len
           readPos := 1
           writePos := 0
           readPtr := 1
           writePtr := 0
           decay := decay }
  else none

/-- The first `SYNTH_USE_DELAY` block of `synth_render_slice`: advance the
read pointer and cursor, wrapping at `len`. -/
def bus_advance_read (fx : SynthFXBus) : SynthFXBus :=
  if fx.readPos + 1 ≥ fx.len then
    { fx with readPos := 0, readPtr := 0 }
  else
    { fx with readPos := fx.readPos + 1, readPtr := fx.readPtr + 1 }

/-- The second `SYNTH_USE_DELAY` block of `synth_render_slice`: store `w`
through the write pointer, then advance pointer and cursor, wrapping at
`len`; `none` when the pointer is outside the block. -/
def bus_store_advance (fx : SynthFXBus) (w : Int) : Option SynthFXBus :=
  if fx.writePtr < fx.buf.length then
    let buf := fx.buf.set fx.writePtr w
    if fx.writePos + 1 ≥ fx.len then
      some { fx with buf := buf, writePos := 0, writePtr := 0 }
    else
      some { fx with buf := buf, writePos := fx.writePos + 1, writePtr := fx.writePtr + 1 }
  else none

/-! ## Synth initialisation -/

/-- One iteration of the loop of `synth_init`: acquire a voice, configure its
envelope and force it to `IDLE`. -/
def synth_init_voice (cfg : SynthConfig) (synth : Synth) : Option Synth :=
  match synth_new_voice cfg synth with
  | none => none
  | some (slot, synth1) =>
    match synth1.voices[slot]? with
    | none => none
    | some voice =>
      let env := synth_adsr_init cfg (25 / 10000) (25 / 100000) (5 / 100000) 1 (25 / 100)
      some { synth1 with
             voices := synth1.voices.set slot { voice with env := { env with phase := .IDLE } } }

/-- The loop `for (uint8_t i = 0; i < SYNTH_POLYPHONY; i++)` of `synth_init`,
as `n` iterations of its body (it runs `SYNTH_POLYPHONY` times when that
constant is at most 255). -/
def synth_init_loop (cfg : SynthConfig) : Nat → Synth → Option Synth
  | 0, synth => some synth
  | n + 1, synth =>
    match synth_init_voice cfg synth with
    | none => none
    | some synth1 => synth_init_loop cfg n synth1

/-- Source `synth_init`, on the memory `synth` it is handed: the initialised
synth and the seeded state of `synthRNG`. The one-element block is what
`malloc(sizeof(int16_t))` returns, with content `cell`. -/
def synth_init (cfg : SynthConfig) (synth : Synth) (cell : Int) : Option (Synth × Nat) :=
  match synth_init_loop cfg cfg.SYNTH_POLYPHONY { synth with nextVoice := 0 } with
  | none => none
  | some synth1 =>
    let synth2 :=
      { synth1 with
        lfoFilter := synth_osc_init cfg synth1.lfoFilter .nop 0 0 0 0
        lfoEnvMod := synth_osc_init cfg synth1.lfoEnvMod .nop 0 0 0 0 }
    match synth_bus_init synth2.bus [cell] 1 2 with
    | none => none
    | some bus => some ({ synth2 with bus := bus }, cfg.tinymt32_init 0xcafebad)

/-! ## Render loop -/

/-- Running state of the voice loop of one sample: the two `int16_t`
accumulators and the generator state. -/
structure MixAcc where
  sumL : Int
  sumR : Int
  rng : Nat
  deriving DecidableEq, Repr

/-- Body of the voice loop of `synth_render_slice` for one voice. -/
def render_voice (cfg : SynthConfig) (envMod : ℚ) (voice : SynthVoice) (acc : MixAcc) :
    SynthVoice × MixAcc :=
  if voice.env.phase ≠ .IDLE then
    let g := synth_adsr_update voice.env envMod
    let p := osc_call cfg voice.lfoPitch 0 0 acc.rng
    let m := osc_call cfg voice.lfoMorph 0 0 p.2.2
    let a := osc_call cfg voice.osc0 p.1 m.1 m.2.2
    let b := osc_call cfg voice.osc1 p.1 m.1 a.2.2
    ({ voice with env := g.2, lfoPitch := p.2.1, lfoMorph := m.2.1, osc0 := a.2.1,
                  osc1 := b.2.1 },
     { sumL := wrap16 (acc.sumL + float_to_int16 (g.1 * a.1))
       sumR := wrap16 (acc.sumR + float_to_int16 (g.1 * b.1))
       rng := b.2.2 })
  else (voice, acc)

/-- The voice loop of `synth_render_slice`: it walks the array from the last
slot down to slot 0, so the tail of the list is processed before its head. -/
def render_voices (cfg : SynthConfig) (envMod : ℚ) :
    List SynthVoice → MixAcc → List SynthVoice × MixAcc
  | [], acc => ([], acc)
  | voice :: rest, acc =>
    let r := render_voices cfg envMod rest acc
    let v := render_voice cfg envMod voice r.2
    (v.1 :: r.1, v.2)

/-- What one iteration of the sample loop of `synth_render_slice` does: the
updated synth and generator state, the sample loaded through `readPtr`, the
value stored through `writePtr` (when the delay line is compiled in) and the
value written to both slots of the output frame. -/
structure SampleResult where
  synth : Synth
  rng : Nat
  delayed : Int
  stored : Option Int
  frame : Int
  deriving DecidableEq, Repr

/-- One iteration of the `while (len--)` loop of `synth_render_slice`; `none`
when a load or store through the bus pointers falls outside the block. -/
def render_sample (cfg : SynthConfig) (synth : Synth) (rng : Nat) : Option SampleResult :=
  let e := osc_call cfg synth.lfoEnvMod 0 0 rng
  let r := render_voices cfg e.1 synth.voices { sumL := 0, sumR := 0, rng := e.2.2 }
  match synth.bus.buf[synth.bus.readPtr]? with
  | none => none
  | some d =>
    let sumL := clamp16 (wrap16 (r.2.sumL + d))
    let sumR := clamp16 (wrap16 (r.2.sumR + d))
    let fx1 := if cfg.SYNTH_USE_DELAY then bus_advance_read synth.bus else synth.bus
    let mono := wrap16 ((sumL + sumR).tdiv 2)
    if cfg.SYNTH_USE_DELAY then
      let w := wrap16 ((mono + sumR) >>> fx1.decay)
      match bus_store_advance fx1 w with
      | none => none
      | some fx2 =>
        some { synth := { synth with voices := r.1, lfoEnvMod := e.2.1, bus := fx2 }
               rng := r.2.rng
               delayed := d
               stored := some w
               frame := mono }
    else
      some { synth := { synth with voices := r.1, lfoEnvMod := e.2.1, bus := fx1 }
             rng := r.2.rng
             delayed := d
             stored := none
             frame := mono }

/-- Source `synth_render_slice` for `len` frames: the final synth, the final
generator state and the `2 * len` values written from `ptr` on. -/
def synth_render_slice (cfg : SynthConfig) : Nat → Synth → Nat → Option (Synth × Nat × List Int)
  | 0, synth, rng => some (synth, rng, [])
  | len + 1, synth, rng =>
    match render_sample cfg synth rng with
    | none => none
    | some r =>
      match synth_render_slice cfg len r.synth r.rng with
      | none => none
      | some (synth1, rng1, out) => some (synth1, rng1, r.frame :: r.frame :: out)

/-- The synth and generator state after `n` render steps. -/
def render_run (cfg : SynthConfig) (n : Nat) (synth : Synth) (rng : Nat) : Option (Synth × Nat) :=
  (synth_render_slice cfg n synth rng).map (fun r => (r.1, r.2.1))

/-- Render step number `t` (0-based) of a run that starts in `synth`. -/
def render_step_at (cfg : SynthConfig) (t : Nat) (synth : Synth) (rng : Nat) :
    Option SampleResult :=
  match render_run cfg t synth rng with
  | none => none
  | some st => render_sample cfg st.1 st.2

/-- The pool after `k` acquisitions by `synth_new_voice`, where after
acquisition number `i` the caller rewrites the voice array with `edit i`
(configuring the returned voice, rendering, or anything else that touches
voices only). -/
def acquire_run (cfg : SynthConfig) (edit : Nat → List SynthVoice → List SynthVoice) :
    Nat → Synth → Option Synth
  | 0, synth => some synth
  | k + 1, synth =>
    match acquire_run cfg edit k synth with
    | none => none
    | some s1 =>
      match synth_new_voice cfg s1 with
      | none => none
      | some r => some { r.2 with voices := edit k r.2.voices }

/-- Position of the delay bus before render step `t` of a bus of length `L`:
the read cursor is at `(t + 1) mod L`, the write cursor at `t mod L`, both
pointers address the element their cursor names, and the block holds at least
`L` elements. -/
structure BusAt (L t : Nat) (fx : SynthFXBus) : Prop where
  len_eq : fx.len = L
  block : L ≤ fx.buf.length
  readPos_eq : fx.readPos = (t + 1) % L
  readPtr_eq : fx.readPtr = fx.readPos
  writePos_eq : fx.writePos = t % L
  writePtr_eq : fx.writePtr = fx.writePos

/-- The waveform functions of `synth.c` that advance the stored phase: all of
them except the two noise generators and the no-op. -/
def OscFn.accumulatesPhase : OscFn → Bool
  | .noise => false
  | .noise_dc => false
  | .nop => false
  | _ => true

/-- An oscillator and the generator state after a sequence of waveform calls
on it; each entry gives the function called and its two modulation inputs. -/
def osc_run (cfg : SynthConfig) : List (OscFn × ℚ × ℚ) → SynthOsc → Nat → SynthOsc × Nat
  | [], osc, rng => (osc, rng)
  | c :: cs, osc, rng =>
    osc_run cfg cs (osc_apply cfg c.1 osc c.2.1 c.2.2 rng).2.1
      (osc_apply cfg c.1 osc c.2.1 c.2.2 rng).2.2

/-- A configuration used for the closed examples of this development: six
voices, delay line compiled in, a 22/7 approximation of pi, flat tables. -/
def demoConfig : SynthConfig :=
  { SYNTH_POLYPHONY := 6
    ADSR_SCALE := 32767
    TAU := 44 / 7
    PI := 22 / 7
    INV_PI := 7 / 22
    INV_HALF_PI := 7 / 11
    wtable_sin := []
    WTABLE_LOOKUP := fun _ _ => 0
    FREQ_TO_RAD := fun f => f * (44 / 7) / 44100
    NORM_RANDF := fun st => (0, st + 1)
    tinymt32_init := fun seed => seed
    SYNTH_USE_DELAY := true }

/-- An oscillator with every field zero and the no-op waveform. -/
def zeroOsc : SynthOsc :=
  { fn := .nop, phase := 0, freq := 0, amp := 0, dcOffset := 0, wtable1 := [], wtable2 := [] }

/-- A voice with every field zero. -/
def zeroVoice : SynthVoice :=
  { osc0 := zeroOsc, osc1 := zeroOsc, lfoPitch := zeroOsc, lfoMorph := zeroOsc
    env := { attackRate := 0, decayRate := 0, releaseRate := 0, attackGain := 0
             sustainGain := 0, currGain := 0, phase := .IDLE }
    flags := 0 }

/-- Zero-filled static storage for a `Synth` with `n` voice slots, as the
linker provides it before `synth_init` runs. -/
def zeroSynth (n : Nat) : Synth :=
  { voices := List.replicate n zeroVoice
    lfoFilter := zeroOsc
    lfoEnvMod := zeroOsc
    bus := { buf := [], len := 0, readPos := 0, writePos := 0, readPtr := 0, writePtr := 0,
             decay := 0 }
    nextVoice := 0 }

/-- The two accumulators `sumL` and `sumR` of one sample after the voice loop
and the addition of the delayed sample, before `clamp16` is applied; `none`
when the load through `readPtr` falls outside the block. -/
def render_sums (cfg : SynthConfig) (synth : Synth) (rng : Nat) : Option (Int × Int) :=
  let e := osc_call cfg synth.lfoEnvMod 0 0 rng
  let r := render_voices cfg e.1 synth.voices { sumL := 0, sumR := 0, rng := e.2.2 }
  match synth.bus.buf[synth.bus.readPtr]? with
  | none => none
  | some d => some (wrap16 (r.2.sumL + d), wrap16 (r.2.sumR + d))

/-- A bus on which render steps stay inside the block: with the delay line
compiled in, cursors and pointers sit at a position `BusAt` of a bus of length
at least 2; with the delay line compiled out, where nothing moves, the read
pointer addresses an element of the block. -/
def BusReady (cfg : SynthConfig) (fx : SynthFXBus) : Prop :=
  if cfg.SYNTH_USE_DELAY then ∃ L t, 2 ≤ L ∧ BusAt L t fx else fx.readPtr < fx.buf.length

/-- A bus as `synth_bus_init` leaves it on a two-element block. -/
def demoBus : SynthFXBus :=
  { buf := [0, 0], len := 2, readPos := 1, writePos := 0, readPtr := 1, writePtr := 0,
    decay := 2 }

/-- A voice as a note-on leaves it: acquired from zero-filled storage, envelope
`synth_adsr_init(env, 1, 0, 0, 1, 0)`, carrier 0 a rectangle wave of gain 0.6
at frequency 0, carrier 1 the no-op oscillator. -/
def loudVoice : SynthVoice :=
  { synth_voice_init demoConfig zeroVoice 0 with
    env := synth_adsr_init demoConfig 1 0 0 1 0
    osc0 := synth_osc_init demoConfig zeroOsc .rect (6 / 10) 0 0 0
    osc1 := synth_osc_init demoConfig zeroOsc .nop 0 0 0 0 }

/-- A synth with two sounding voices `loudVoice` and four idle ones, the
envelope modulation set to the constant 1 the way `main.c` does it
(`synth_osc_sin_dc` with gain 0 and DC offset 1), and a two-element bus. -/
def loudSynth : Synth :=
  { voices := [loudVoice, loudVoice, zeroVoice, zeroVoice, zeroVoice, zeroVoice]
    lfoFilter := zeroOsc
    lfoEnvMod := synth_osc_init demoConfig zeroOsc .sin_dc 0 0 0 1
    bus := demoBus
    nextVoice := 2 }

/-- The synth `loudSynth` with a single sounding voice. -/
def leftSynth : Synth :=
  { loudSynth with
    voices := [loudVoice, zeroVoice, zeroVoice, zeroVoice, zeroVoice, zeroVoice]
    nextVoice := 1 }

/-! ## Envelope: frame lemmas -/

theorem adsr_update_rates (env : ADSR) (envMod : ℚ) :
    (synth_adsr_update env envMod).2.attackRate = env.attackRate ∧
    (synth_adsr_update env envMod).2.decayRate = env.decayRate ∧
    (synth_adsr_update env envMod).2.releaseRate = env.releaseRate ∧
    (synth_adsr_update env envMod).2.attackGain = env.attackGain ∧
    (synth_adsr_update env envMod).2.sustainGain = env.sustainGain := by
  unfold synth_adsr_update
  cases env.phase <;> simp only [] <;> (try split_ifs) <;> simp

theorem adsr_run_snoc (env : ADSR) (mods : List ℚ) (m : ℚ) :
    adsr_run env (mods ++ [m]) = (synth_adsr_update (adsr_run env mods) m).2 := by
  simp [adsr_run, List.foldl_append]

theorem adsr_run_replicate_succ (env : ADSR) (k : Nat) (m : ℚ) :
    adsr_run env (List.replicate (k + 1) m)
      = (synth_adsr_update (adsr_run env (List.replicate k m)) m).2 := by
  rw [List.replicate_succ', adsr_run_snoc]

theorem adsr_run_rates (env : ADSR) (mods : List ℚ) :
    (adsr_run env mods).attackRate = env.attackRate ∧
    (adsr_run env mods).decayRate = env.decayRate ∧
    (adsr_run env mods).releaseRate = env.releaseRate ∧
    (adsr_run env mods).attackGain = env.attackGain ∧
    (adsr_run env mods).sustainGain = env.sustainGain := by
  induction mods using List.reverseRecOn with
  | nil => simp [adsr_run]
  | append_singleton ms m ih =>
    rw [adsr_run_snoc]
    obtain ⟨h1, h2, h3, h4, h5⟩ := adsr_update_rates (adsr_run env ms) m
    obtain ⟨i1, i2, i3, i4, i5⟩ := ih
    exact ⟨h1.trans i1, h2.trans i2, h3.trans i3, h4.trans i4, h5.trans i5⟩

/-- An update that ends in `ATTACK` started in `ATTACK` below the attack gain
and added one increment. -/
theorem adsr_update_attack_inv (env : ADSR) (envMod : ℚ)
    (h : (synth_adsr_update env envMod).2.phase = .ATTACK) :
    env.phase = .ATTACK ∧ env.currGain < env.attackGain ∧
    (synth_adsr_update env envMod).2.currGain = env.currGain + env.attackRate * envMod ∧
    (synth_adsr_update env envMod).1 = env.currGain + env.attackRate * envMod := by
  unfold synth_adsr_update at h ⊢
  cases hp : env.phase <;> simp only [hp] at h ⊢ <;> (try split_ifs at h ⊢) <;> simp_all

theorem adsr_update_attack_below (env : ADSR) (envMod : ℚ) (hp : env.phase = .ATTACK)
    (hlt : env.currGain < env.attackGain) :
    synth_adsr_update env envMod
      = (env.currGain + env.attackRate * envMod,
         { env with currGain := env.currGain + env.attackRate * envMod }) := by
  unfold synth_adsr_update
  simp only [hp]
  rw [if_neg (not_le.mpr hlt)]

theorem adsr_update_attack_reached (env : ADSR) (envMod : ℚ) (hp : env.phase = .ATTACK)
    (hge : env.attackGain ≤ env.currGain) :
    synth_adsr_update env envMod = (env.currGain, { env with phase := .DECAY }) := by
  unfold synth_adsr_update
  simp only [hp]
  rw [if_pos hge]

/-- Along a run from `synth_adsr_init` with non-negative attack rate and
modulation values, the gain is non-negative whenever the phase is `ATTACK`. -/
theorem adsr_run_attack_nonneg (cfg : SynthConfig)
    (attRate decayRate releaseRate attGain sustainGain : ℚ)
    (hS : 0 ≤ cfg.ADSR_SCALE) (hr : 0 ≤ attRate) (mods : List ℚ) (hmods : ∀ m ∈ mods, 0 ≤ m)
    (hph : (adsr_run (synth_adsr_init cfg attRate decayRate releaseRate attGain sustainGain)
              mods).phase = .ATTACK) :
    0 ≤ (adsr_run (synth_adsr_init cfg attRate decayRate releaseRate attGain sustainGain)
          mods).currGain := by
  induction mods using List.reverseRecOn with
  | nil => simp [adsr_run, synth_adsr_init]
  | append_singleton ms m ih =>
    rw [adsr_run_snoc] at hph ⊢
    obtain ⟨h1, _, h3, _⟩ := adsr_update_attack_inv _ _ hph
    have hprev := ih (fun x hx => hmods x (List.mem_append_left _ hx)) h1
    have hm : 0 ≤ m := hmods m (by simp)
    have hrate := (adsr_run_rates
      (synth_adsr_init cfg attRate decayRate releaseRate attGain sustainGain) ms).1
    rw [h3, hrate]
    have : 0 ≤ attRate * cfg.ADSR_SCALE * m := mul_nonneg (mul_nonneg hr hS) hm
    simpa [synth_adsr_init] using add_nonneg hprev this

/-- With attack rate 1/10, attack gain 1 and modulation 1, the first ten
updates each add a tenth of the scaled attack gain and stay in `ATTACK`. -/
theorem adsr_attack_tenths (cfg : SynthConfig) (hS : 0 < cfg.ADSR_SCALE)
    (decayRate releaseRate sustainGain : ℚ) (k : Nat) (hk : k ≤ 10) :
    (adsr_run (synth_adsr_init cfg (1 / 10) decayRate releaseRate 1 sustainGain)
        (List.replicate k 1)).phase = .ATTACK ∧
    (adsr_run (synth_adsr_init cfg (1 / 10) decayRate releaseRate 1 sustainGain)
        (List.replicate k 1)).currGain = k * (cfg.ADSR_SCALE / 10) := by
  induction k with
  | zero => simp [adsr_run, synth_adsr_init]
  | succ n ih =>
    obtain ⟨hp, hg⟩ := ih (by omega)
    obtain ⟨hr, _, _, hag, _⟩ := adsr_run_rates
      (synth_adsr_init cfg (1 / 10) decayRate releaseRate 1 sustainGain) (List.replicate n 1)
    have hn : (n : ℚ) ≤ 9 := by exact_mod_cast (show n ≤ 9 by omega)
    have hlt : (adsr_run (synth_adsr_init cfg (1 / 10) decayRate releaseRate 1 sustainGain)
        (List.replicate n 1)).currGain
        < (adsr_run (synth_adsr_init cfg (1 / 10) decayRate releaseRate 1 sustainGain)
        (List.replicate n 1)).attackGain := by
      rw [hg, hag]
      simp only [synth_adsr_init]
      nlinarith
    rw [adsr_run_replicate_succ, adsr_update_attack_below _ _ hp hlt]
    refine ⟨hp, ?_⟩
    simp only [hg, hr]
    simp only [synth_adsr_init]
    push_cast
    ring

/-- The state after the eleventh update of the 1/10 attack. -/
theorem adsr_attack_eleventh (cfg : SynthConfig) (hS : 0 < cfg.ADSR_SCALE)
    (decayRate releaseRate sustainGain : ℚ) :
    (adsr_run (synth_adsr_init cfg (1 / 10) decayRate releaseRate 1 sustainGain)
        (List.replicate 11 1)).phase = .DECAY := by
  obtain ⟨hp, hg⟩ := adsr_attack_tenths cfg hS decayRate releaseRate sustainGain 10 le_rfl
  obtain ⟨_, _, _, hag, _⟩ := adsr_run_rates
    (synth_adsr_init cfg (1 / 10) decayRate releaseRate 1 sustainGain) (List.replicate 10 1)
  have hge : (adsr_run (synth_adsr_init cfg (1 / 10) decayRate releaseRate 1 sustainGain)
        (List.replicate 10 1)).attackGain
        ≤ (adsr_run (synth_adsr_init cfg (1 / 10) decayRate releaseRate 1 sustainGain)
        (List.replicate 10 1)).currGain := by
    rw [hg, hag]
    simp only [synth_adsr_init]
    push_cast
    linarith
  rw [adsr_run_replicate_succ, adsr_update_attack_reached _ _ hp hge]

/-- The run `1, 1, 1` of the envelope `synth_adsr_init(env, 1, 3, 1, 1, 0)`:
attack to the attack gain, switch to decay, one decay step. -/
theorem adsr_undershoot_run3 (cfg : SynthConfig) (hS : 0 < cfg.ADSR_SCALE) :
    adsr_run (synth_adsr_init cfg 1 3 1 1 0) [1, 1, 1]
      = { synth_adsr_init cfg 1 3 1 1 0 with
          currGain := -2 * cfg.ADSR_SCALE, phase := .DECAY } := by
  have h1 : ¬ (0 ≥ 1 * cfg.ADSR_SCALE) := by linarith
  have h2 : (0 : ℚ) + 1 * cfg.ADSR_SCALE * 1 ≥ 1 * cfg.ADSR_SCALE := by linarith
  have h3 : (0 : ℚ) + 1 * cfg.ADSR_SCALE * 1 > 0 * cfg.ADSR_SCALE := by linarith
  simp only [adsr_run, List.foldl, synth_adsr_init, synth_adsr_update, if_neg h1, if_pos h2,
    if_pos h3]
  congr 1
  ring

/-- Two more updates of that envelope reach `IDLE` with the negative gain. -/
theorem adsr_undershoot_run5 (cfg : SynthConfig) (hS : 0 < cfg.ADSR_SCALE) :
    adsr_run (synth_adsr_init cfg 1 3 1 1 0) [1, 1, 1, 1, 1]
      = { synth_adsr_init cfg 1 3 1 1 0 with
          currGain := -2 * cfg.ADSR_SCALE, phase := .IDLE } := by
  have h := adsr_undershoot_run3 cfg hS
  have e : adsr_run (synth_adsr_init cfg 1 3 1 1 0) [1, 1, 1, 1, 1]
      = adsr_run (adsr_run (synth_adsr_init cfg 1 3 1 1 0) [1, 1, 1]) [1, 1] := by
    simp [adsr_run]
  have h1 : ¬ (-2 * cfg.ADSR_SCALE > 0 * cfg.ADSR_SCALE) := by linarith
  have h2 : ¬ (-2 * cfg.ADSR_SCALE > 0) := by linarith
  rw [e, h]
  simp only [adsr_run, List.foldl, synth_adsr_init, synth_adsr_update, if_neg h1, if_neg h2]

/-! ## Envelope: claims -/

/-- C3: the gain does not stay non-negative in `DECAY`. For every positive
`ADSR_SCALE`, the envelope `synth_adsr_init(env, 1, 3, 1, 1, 0)` updated three
times with `envMod = 1` is in phase `DECAY` with gain `-2 * ADSR_SCALE`: the
decay branch subtracts without the clamp at zero that the release branch has. -/
theorem adsr_decay_gain_negative (cfg : SynthConfig) (hS : 0 < cfg.ADSR_SCALE) :
    (adsr_run (synth_adsr_init cfg 1 3 1 1 0) [1, 1, 1]).phase = .DECAY ∧
    (adsr_run (synth_adsr_init cfg 1 3 1 1 0) [1, 1, 1]).currGain = -2 * cfg.ADSR_SCALE ∧
    (adsr_run (synth_adsr_init cfg 1 3 1 1 0) [1, 1, 1]).currGain < 0 := by
  rw [adsr_undershoot_run3 cfg hS]
  refine ⟨rfl, rfl, ?_⟩
  show -2 * cfg.ADSR_SCALE < 0
  linarith

theorem adsr_decay_gain_negative_witness :
    (adsr_run (synth_adsr_init demoConfig 1 3 1 1 0) [1, 1, 1]).phase = .DECAY ∧
    (adsr_run (synth_adsr_init demoConfig 1 3 1 1 0) [1, 1, 1]).currGain
      = -2 * demoConfig.ADSR_SCALE ∧
    (adsr_run (synth_adsr_init demoConfig 1 3 1 1 0) [1, 1, 1]).currGain < 0 :=
  adsr_decay_gain_negative demoConfig (by norm_num [demoConfig])

/-- C4 (counterexample): with attack rate 2/3, attack gain 1 and `envMod = 1`
the envelope is still in `ATTACK` after two updates while its gain is above
the attack gain. -/
theorem adsr_attack_overshoot_example :
    (adsr_run (synth_adsr_init demoConfig (2 / 3) 0 0 1 0) [1, 1]).phase = .ATTACK ∧
    (adsr_run (synth_adsr_init demoConfig (2 / 3) 0 0 1 0) [1, 1]).attackGain
      < (adsr_run (synth_adsr_init demoConfig (2 / 3) 0 0 1 0) [1, 1]).currGain := by
  norm_num [adsr_run, synth_adsr_init, synth_adsr_update, demoConfig]

/-- C4 (amended): for an envelope configured by `synth_adsr_init` with
non-negative attack rate and scale and updated with non-negative `envMod`
values, every update that leaves the phase at `ATTACK` started in `ATTACK`
from a non-negative gain, does not decrease the gain, returns the new gain,
and leaves it below `attackGain + attackRate * envMod` of that call: the gain
may pass the attack gain by less than one increment. -/
theorem adsr_attack_monotone_bounded (cfg : SynthConfig)
    (attRate decayRate releaseRate attGain sustainGain : ℚ)
    (hS : 0 ≤ cfg.ADSR_SCALE) (hr : 0 ≤ attRate) (mods : List ℚ) (hmods : ∀ m ∈ mods, 0 ≤ m)
    (m : ℚ) (hm : 0 ≤ m)
    (hph : (synth_adsr_update
        (adsr_run (synth_adsr_init cfg attRate decayRate releaseRate attGain sustainGain) mods)
        m).2.phase = .ATTACK) :
    (adsr_run (synth_adsr_init cfg attRate decayRate releaseRate attGain sustainGain)
        mods).phase = .ATTACK ∧
    0 ≤ (adsr_run (synth_adsr_init cfg attRate decayRate releaseRate attGain sustainGain)
        mods).currGain ∧
    (adsr_run (synth_adsr_init cfg attRate decayRate releaseRate attGain sustainGain)
        mods).currGain
      ≤ (synth_adsr_update
          (adsr_run (synth_adsr_init cfg attRate decayRate releaseRate attGain sustainGain) mods)
          m).2.currGain ∧
    (synth_adsr_update
        (adsr_run (synth_adsr_init cfg attRate decayRate releaseRate attGain sustainGain) mods)
        m).1
      = (synth_adsr_update
          (adsr_run (synth_adsr_init cfg attRate decayRate releaseRate attGain sustainGain) mods)
          m).2.currGain ∧
    (synth_adsr_update
        (adsr_run (synth_adsr_init cfg attRate decayRate releaseRate attGain sustainGain) mods)
        m).2.currGain
      < attGain * cfg.ADSR_SCALE + attRate * cfg.ADSR_SCALE * m := by
  obtain ⟨h1, h2, h3, h4⟩ := adsr_update_attack_inv _ _ hph
  obtain ⟨hrate, _, _, hgain, _⟩ := adsr_run_rates
    (synth_adsr_init cfg attRate decayRate releaseRate attGain sustainGain) mods
  have h0 := adsr_run_attack_nonneg cfg attRate decayRate releaseRate attGain sustainGain
    hS hr mods hmods h1
  have hinc : 0 ≤ attRate * cfg.ADSR_SCALE * m := mul_nonneg (mul_nonneg hr hS) hm
  have hrate1 : (adsr_run (synth_adsr_init cfg attRate decayRate releaseRate attGain sustainGain)
      mods).attackRate = attRate * cfg.ADSR_SCALE := hrate
  have hgain1 : (adsr_run (synth_adsr_init cfg attRate decayRate releaseRate attGain sustainGain)
      mods).attackGain = attGain * cfg.ADSR_SCALE := hgain
  rw [hgain1] at h2
  rw [hrate1] at h3 h4
  refine ⟨h1, h0, ?_, ?_, ?_⟩
  · rw [h3]; linarith
  · rw [h3, h4]
  · rw [h3]; linarith

theorem adsr_attack_monotone_bounded_witness :
    (adsr_run (synth_adsr_init demoConfig (2 / 3) 0 0 1 0) [1]).phase = .ATTACK ∧
    0 ≤ (adsr_run (synth_adsr_init demoConfig (2 / 3) 0 0 1 0) [1]).currGain ∧
    (adsr_run (synth_adsr_init demoConfig (2 / 3) 0 0 1 0) [1]).currGain
      ≤ (synth_adsr_update
          (adsr_run (synth_adsr_init demoConfig (2 / 3) 0 0 1 0) [1]) 1).2.currGain ∧
    (synth_adsr_update (adsr_run (synth_adsr_init demoConfig (2 / 3) 0 0 1 0) [1]) 1).1
      = (synth_adsr_update
          (adsr_run (synth_adsr_init demoConfig (2 / 3) 0 0 1 0) [1]) 1).2.currGain ∧
    (synth_adsr_update
        (adsr_run (synth_adsr_init demoConfig (2 / 3) 0 0 1 0) [1]) 1).2.currGain
      < 1 * demoConfig.ADSR_SCALE + 2 / 3 * demoConfig.ADSR_SCALE * 1 :=
  adsr_attack_monotone_bounded demoConfig (2 / 3) 0 0 1 0 (by norm_num [demoConfig])
    (by norm_num) [1] (by simp) 1 (by norm_num)
    (by norm_num [adsr_run, synth_adsr_init, synth_adsr_update, demoConfig])

/-- C5: one update of an envelope in `RELEASE` with non-negative gain and
release rate, for any `envMod`, returns and stores a gain between 0 and the
old gain, stays in `RELEASE` or moves to `IDLE`, and moves to `IDLE` exactly
when it finds the gain at or below 0. -/
theorem adsr_release_step (env : ADSR) (envMod : ℚ) (hph : env.phase = .RELEASE)
    (hg : 0 ≤ env.currGain) (hr : 0 ≤ env.releaseRate) :
    0 ≤ (synth_adsr_update env envMod).2.currGain ∧
    (synth_adsr_update env envMod).2.currGain ≤ env.currGain ∧
    (synth_adsr_update env envMod).1 = (synth_adsr_update env envMod).2.currGain ∧
    ((synth_adsr_update env envMod).2.phase = .RELEASE ∨
      (synth_adsr_update env envMod).2.phase = .IDLE) ∧
    ((synth_adsr_update env envMod).2.phase = .IDLE ↔ env.currGain ≤ 0) := by
  unfold synth_adsr_update
  simp only [hph]
  split_ifs with h1 h2 <;> dsimp only
  · exact ⟨le_rfl, hg, rfl, Or.inl rfl, ⟨fun h => h.elim, fun h => by linarith⟩⟩
  · exact ⟨by linarith, by linarith, rfl, Or.inl rfl, ⟨fun h => h.elim, fun h => by linarith⟩⟩
  · exact ⟨hg, le_rfl, rfl, Or.inr rfl, ⟨fun _ => by linarith, fun _ => rfl⟩⟩

theorem adsr_release_step_witness :
    0 ≤ (synth_adsr_update { synth_adsr_init demoConfig 1 1 (1 / 4) 1 0 with
          currGain := 100, phase := .RELEASE } 5).2.currGain ∧
    (synth_adsr_update { synth_adsr_init demoConfig 1 1 (1 / 4) 1 0 with
          currGain := 100, phase := .RELEASE } 5).2.currGain ≤ 100 ∧
    (synth_adsr_update { synth_adsr_init demoConfig 1 1 (1 / 4) 1 0 with
          currGain := 100, phase := .RELEASE } 5).1
      = (synth_adsr_update { synth_adsr_init demoConfig 1 1 (1 / 4) 1 0 with
          currGain := 100, phase := .RELEASE } 5).2.currGain ∧
    ((synth_adsr_update { synth_adsr_init demoConfig 1 1 (1 / 4) 1 0 with
          currGain := 100, phase := .RELEASE } 5).2.phase = .RELEASE ∨
      (synth_adsr_update { synth_adsr_init demoConfig 1 1 (1 / 4) 1 0 with
          currGain := 100, phase := .RELEASE } 5).2.phase = .IDLE) ∧
    ((synth_adsr_update { synth_adsr_init demoConfig 1 1 (1 / 4) 1 0 with
          currGain := 100, phase := .RELEASE } 5).2.phase = .IDLE ↔ (100 : ℚ) ≤ 0) :=
  adsr_release_step { synth_adsr_init demoConfig 1 1 (1 / 4) 1 0 with
      currGain := 100, phase := .RELEASE } 5 rfl
    (by norm_num) (by norm_num [synth_adsr_init, demoConfig])

/-- C6: an update in `IDLE` does not always return 0. For every positive
`ADSR_SCALE`, the envelope `synth_adsr_init(env, 1, 3, 1, 1, 0)` updated five
times with `envMod = 1` is in phase `IDLE`, and the next update returns
`-2 * ADSR_SCALE`: `IDLE` returns the stored gain, which the decay branch left
negative. -/
theorem adsr_idle_returns_negative (cfg : SynthConfig) (hS : 0 < cfg.ADSR_SCALE) :
    (adsr_run (synth_adsr_init cfg 1 3 1 1 0) [1, 1, 1, 1, 1]).phase = .IDLE ∧
    (synth_adsr_update (adsr_run (synth_adsr_init cfg 1 3 1 1 0) [1, 1, 1, 1, 1]) 1).1
      = -2 * cfg.ADSR_SCALE ∧
    (synth_adsr_update (adsr_run (synth_adsr_init cfg 1 3 1 1 0) [1, 1, 1, 1, 1]) 1).1 ≠ 0 := by
  rw [adsr_undershoot_run5 cfg hS]
  refine ⟨rfl, rfl, ?_⟩
  show -2 * cfg.ADSR_SCALE ≠ 0
  intro h
  linarith

theorem adsr_idle_returns_negative_witness :
    (adsr_run (synth_adsr_init demoConfig 1 3 1 1 0) [1, 1, 1, 1, 1]).phase = .IDLE ∧
    (synth_adsr_update (adsr_run (synth_adsr_init demoConfig 1 3 1 1 0) [1, 1, 1, 1, 1]) 1).1
      = -2 * demoConfig.ADSR_SCALE ∧
    (synth_adsr_update (adsr_run (synth_adsr_init demoConfig 1 3 1 1 0) [1, 1, 1, 1, 1]) 1).1
      ≠ 0 :=
  adsr_idle_returns_negative demoConfig (by norm_num [demoConfig])

/-- C7 (counterexample): with attack gain 1, attack rate 1/10 and `envMod = 1`
the phase after the tenth update is not `DECAY`. -/
theorem adsr_attack_ten_calls_not_decay :
    (adsr_run (synth_adsr_init demoConfig (1 / 10) 0 0 1 0) (List.replicate 10 1)).phase
      ≠ .DECAY := by
  rw [(adsr_attack_tenths demoConfig (by norm_num [demoConfig]) 0 0 0 10 le_rfl).1]
  decide

/-- C7 (amended): an envelope configured by `synth_adsr_init` with attack gain
1 and attack rate 1/10 (any decay, release and sustain values, positive
`ADSR_SCALE`) and updated with `envMod = 1` is in `ATTACK` after each of the
first ten updates, has its gain equal to the attack gain after the tenth, and
is in `DECAY` after the eleventh: the switch takes one update of its own. -/
theorem adsr_attack_decay_after_eleven (cfg : SynthConfig) (hS : 0 < cfg.ADSR_SCALE)
    (decayRate releaseRate sustainGain : ℚ) :
    (∀ k, k ≤ 10 →
      (adsr_run (synth_adsr_init cfg (1 / 10) decayRate releaseRate 1 sustainGain)
        (List.replicate k 1)).phase = .ATTACK) ∧
    (adsr_run (synth_adsr_init cfg (1 / 10) decayRate releaseRate 1 sustainGain)
        (List.replicate 10 1)).currGain
      = (adsr_run (synth_adsr_init cfg (1 / 10) decayRate releaseRate 1 sustainGain)
        (List.replicate 10 1)).attackGain ∧
    (adsr_run (synth_adsr_init cfg (1 / 10) decayRate releaseRate 1 sustainGain)
        (List.replicate 11 1)).phase = .DECAY := by
  refine ⟨fun k hk => (adsr_attack_tenths cfg hS decayRate releaseRate sustainGain k hk).1,
    ?_, adsr_attack_eleventh cfg hS decayRate releaseRate sustainGain⟩
  rw [(adsr_attack_tenths cfg hS decayRate releaseRate sustainGain 10 le_rfl).2,
    (adsr_run_rates _ _).2.2.2.1]
  simp only [synth_adsr_init]
  push_cast
  ring

theorem adsr_attack_decay_after_eleven_witness :
    (∀ k, k ≤ 10 →
      (adsr_run (synth_adsr_init demoConfig (1 / 10) (1 / 100) (1 / 100) 1 (1 / 2))
        (List.replicate k 1)).phase = .ATTACK) ∧
    (adsr_run (synth_adsr_init demoConfig (1 / 10) (1 / 100) (1 / 100) 1 (1 / 2))
        (List.replicate 10 1)).currGain
      = (adsr_run (synth_adsr_init demoConfig (1 / 10) (1 / 100) (1 / 100) 1 (1 / 2))
        (List.replicate 10 1)).attackGain ∧
    (adsr_run (synth_adsr_init demoConfig (1 / 10) (1 / 100) (1 / 100) 1 (1 / 2))
        (List.replicate 11 1)).phase = .DECAY :=
  adsr_attack_decay_after_eleven demoConfig (by norm_num [demoConfig]) (1 / 100) (1 / 100) (1 / 2)

/-! ## Voice pool -/

theorem synth_new_voice_spec (cfg : SynthConfig) (synth : Synth)
    (hlen : synth.voices.length = cfg.SYNTH_POLYPHONY)
    (hc : synth.nextVoice < cfg.SYNTH_POLYPHONY) :
    ∃ s1, synth_new_voice cfg synth = some (synth.nextVoice, s1) ∧
      s1.nextVoice = (synth.nextVoice + 1) % cfg.SYNTH_POLYPHONY ∧
      s1.voices.length = cfg.SYNTH_POLYPHONY ∧
      s1.bus = synth.bus ∧ s1.lfoEnvMod = synth.lfoEnvMod ∧ s1.lfoFilter = synth.lfoFilter := by
  have hlt : synth.nextVoice < synth.voices.length := by omega
  unfold synth_new_voice
  rw [List.getElem?_eq_getElem hlt]
  refine ⟨_, rfl, ?_, ?_, rfl, rfl, rfl⟩
  · dsimp only
    split_ifs with h
    · rw [h, Nat.mod_self]
    · rw [Nat.mod_eq_of_lt (by omega)]
  · simp [hlen]

theorem synth_init_voice_spec (cfg : SynthConfig) (synth : Synth)
    (hlen : synth.voices.length = cfg.SYNTH_POLYPHONY)
    (hc : synth.nextVoice < cfg.SYNTH_POLYPHONY) :
    ∃ s1, synth_init_voice cfg synth = some s1 ∧
      s1.nextVoice = (synth.nextVoice + 1) % cfg.SYNTH_POLYPHONY ∧
      s1.voices.length = cfg.SYNTH_POLYPHONY := by
  obtain ⟨s1, h1, h2, h3, _⟩ := synth_new_voice_spec cfg synth hlen hc
  have hlt : synth.nextVoice < s1.voices.length := by omega
  unfold synth_init_voice
  rw [h1]
  dsimp only
  rw [List.getElem?_eq_getElem hlt]
  exact ⟨_, rfl, h2, by simp [h3]⟩

theorem synth_init_loop_spec (cfg : SynthConfig) (n : Nat) (synth : Synth)
    (hlen : synth.voices.length = cfg.SYNTH_POLYPHONY)
    (hc : synth.nextVoice < cfg.SYNTH_POLYPHONY) :
    ∃ s1, synth_init_loop cfg n synth = some s1 ∧
      s1.nextVoice = (synth.nextVoice + n) % cfg.SYNTH_POLYPHONY ∧
      s1.voices.length = cfg.SYNTH_POLYPHONY := by
  induction n generalizing synth with
  | zero => exact ⟨synth, rfl, by rw [Nat.add_zero, Nat.mod_eq_of_lt hc], hlen⟩
  | succ n ih =>
    obtain ⟨s1, h1, h2, h3⟩ := synth_init_voice_spec cfg synth hlen hc
    have hP : 0 < cfg.SYNTH_POLYPHONY := by omega
    obtain ⟨s2, k1, k2, k3⟩ := ih s1 h3 (by rw [h2]; exact Nat.mod_lt _ hP)
    refine ⟨s2, ?_, ?_, k3⟩
    · rw [synth_init_loop, h1]; exact k1
    · rw [k2, h2, Nat.mod_add_mod]; congr 1; omega

theorem synth_init_spec (cfg : SynthConfig) (mem : Synth) (cell : Int)
    (hP : 0 < cfg.SYNTH_POLYPHONY) (hlen : mem.voices.length = cfg.SYNTH_POLYPHONY) :
    ∃ s0, synth_init cfg mem cell = some (s0, cfg.tinymt32_init 0xcafebad) ∧
      s0.nextVoice = 0 ∧ s0.voices.length = cfg.SYNTH_POLYPHONY ∧
      s0.bus = { buf := [0], len := 1, readPos := 1, writePos := 0, readPtr := 1,
                 writePtr := 0, decay := 2 } := by
  obtain ⟨s1, h1, h2, h3⟩ := synth_init_loop_spec cfg cfg.SYNTH_POLYPHONY
    { mem with nextVoice := 0 } hlen hP
  unfold synth_init
  rw [h1]
  refine ⟨_, rfl, ?_, h3, ?_⟩
  · simpa using h2
  · simp

theorem acquire_run_spec (cfg : SynthConfig) (edit : Nat → List SynthVoice → List SynthVoice)
    (hedit : ∀ i vs, (edit i vs).length = vs.length) (hP : 0 < cfg.SYNTH_POLYPHONY)
    (s0 : Synth) (hlen : s0.voices.length = cfg.SYNTH_POLYPHONY) (h0 : s0.nextVoice = 0)
    (k : Nat) :
    ∃ sk, acquire_run cfg edit k s0 = some sk ∧
      sk.nextVoice = k % cfg.SYNTH_POLYPHONY ∧ sk.voices.length = cfg.SYNTH_POLYPHONY := by
  induction k with
  | zero => exact ⟨s0, rfl, by simp [h0], hlen⟩
  | succ n ih =>
    obtain ⟨sn, h1, h2, h3⟩ := ih
    obtain ⟨s1, k1, k2, k3, _⟩ := synth_new_voice_spec cfg sn h3
      (by rw [h2]; exact Nat.mod_lt _ hP)
    refine ⟨{ s1 with voices := edit n s1.voices }, ?_, ?_, ?_⟩
    · rw [acquire_run, h1]; dsimp only; rw [k1]
    · show s1.nextVoice = _
      rw [k2, h2, Nat.mod_add_mod]
    · show (edit n s1.voices).length = _
      rw [hedit, k3]

/-- C1: starting from the state produced by `synth_init` (which succeeds and
leaves `nextVoice = 0`), for every `k` the `k`-th call to `synth_new_voice`
(0-based, after `k` earlier calls) returns the voice in slot
`k mod SYNTH_POLYPHONY` and leaves `nextVoice = (k + 1) mod SYNTH_POLYPHONY`,
which is below `SYNTH_POLYPHONY`, whatever the caller does to the voices
between the calls (`edit`). -/
theorem synth_new_voice_round_robin (cfg : SynthConfig)
    (hP : 0 < cfg.SYNTH_POLYPHONY) (_h8 : cfg.SYNTH_POLYPHONY ≤ 255)
    (mem : Synth) (cell : Int) (hlen : mem.voices.length = cfg.SYNTH_POLYPHONY)
    (edit : Nat → List SynthVoice → List SynthVoice)
    (hedit : ∀ i vs, (edit i vs).length = vs.length) (k : Nat) :
    ∃ s0 rng sk s1,
      synth_init cfg mem cell = some (s0, rng) ∧ s0.nextVoice = 0 ∧
      acquire_run cfg edit k s0 = some sk ∧
      synth_new_voice cfg sk = some (k % cfg.SYNTH_POLYPHONY, s1) ∧
      s1.nextVoice = (k + 1) % cfg.SYNTH_POLYPHONY ∧
      s1.nextVoice < cfg.SYNTH_POLYPHONY := by
  obtain ⟨s0, h1, h2, h3, _⟩ := synth_init_spec cfg mem cell hP hlen
  obtain ⟨sk, k1, k2, k3⟩ := acquire_run_spec cfg edit hedit hP s0 h3 h2 k
  obtain ⟨s1, n1, n2, _⟩ := synth_new_voice_spec cfg sk k3 (by rw [k2]; exact Nat.mod_lt _ hP)
  refine ⟨s0, _, sk, s1, h1, h2, k1, ?_, ?_, ?_⟩
  · rw [n1, k2]
  · rw [n2, k2, Nat.mod_add_mod]
  · rw [n2]; exact Nat.mod_lt _ hP

theorem synth_new_voice_round_robin_witness :
    ∃ s0 rng sk s1,
      synth_init demoConfig (zeroSynth 6) 0 = some (s0, rng) ∧ s0.nextVoice = 0 ∧
      acquire_run demoConfig (fun _ vs => vs) 8 s0 = some sk ∧
      synth_new_voice demoConfig sk = some (8 % demoConfig.SYNTH_POLYPHONY, s1) ∧
      s1.nextVoice = (8 + 1) % demoConfig.SYNTH_POLYPHONY ∧
      s1.nextVoice < demoConfig.SYNTH_POLYPHONY :=
  synth_new_voice_round_robin demoConfig (by decide) (by decide) (zeroSynth 6) 0
    (by simp [zeroSynth, demoConfig]) (fun _ vs => vs) (fun _ _ => rfl) 8

/-! ## Delay bus and render steps -/

theorem succ_mod_step (a L : Nat) (hL : 0 < L) :
    (a + 1) % L = if a % L + 1 ≥ L then 0 else a % L + 1 := by
  have hlt : a % L < L := Nat.mod_lt _ hL
  rw [← Nat.mod_add_mod a L 1]
  split_ifs with h
  · have : a % L + 1 = L := by omega
    rw [this, Nat.mod_self]
  · exact Nat.mod_eq_of_lt (by omega)

theorem mod_ne_of_close (j t L : Nat) (h1 : j < t) (h2 : t < j + L) : j % L ≠ t % L := by
  intro h
  have hd : L ∣ t - j := (Nat.modEq_iff_dvd' h1.le).mp h
  have := Nat.le_of_dvd (by omega) hd
  omega

theorem bus_advance_read_at (L t : Nat) (fx : SynthFXBus) (hL : 0 < L) (h : BusAt L t fx) :
    bus_advance_read fx = { fx with readPos := (t + 2) % L, readPtr := (t + 2) % L } := by
  unfold bus_advance_read
  have e := succ_mod_step (t + 1) L hL
  rw [h.readPtr_eq, h.readPos_eq, h.len_eq]
  split_ifs with c
  · rw [if_pos c] at e; rw [show t + 2 = t + 1 + 1 from rfl, e]
  · rw [if_neg c] at e; rw [show t + 2 = t + 1 + 1 from rfl, e]

theorem bus_store_advance_at (L t : Nat) (fx : SynthFXBus) (w : Int) (hL : 0 < L)
    (hlen : fx.len = L) (hblock : L ≤ fx.buf.length) (hpos : fx.writePos = t % L)
    (hptr : fx.writePtr = fx.writePos) :
    bus_store_advance fx w
      = some { fx with buf := fx.buf.set (t % L) w, writePos := (t + 1) % L,
                       writePtr := (t + 1) % L } := by
  unfold bus_store_advance
  have hlt : t % L < L := Nat.mod_lt _ hL
  have e := succ_mod_step t L hL
  rw [hptr, hpos, hlen, if_pos (by omega)]
  dsimp only
  split_ifs with c
  · rw [if_pos c] at e; rw [e]
  · rw [if_neg c] at e; rw [e]

/-- One render step with the delay line compiled in, seen from the bus. -/
theorem render_sample_bus (cfg : SynthConfig) (hd : cfg.SYNTH_USE_DELAY = true)
    (L t : Nat) (hL : 2 ≤ L) (synth : Synth) (rng : Nat) (h : BusAt L t synth.bus) :
    ∃ r w, render_sample cfg synth rng = some r ∧
      synth.bus.buf[(t + 1) % L]? = some r.delayed ∧
      r.stored = some w ∧
      r.synth.bus.buf = synth.bus.buf.set (t % L) w ∧
      BusAt L (t + 1) r.synth.bus := by
  have hL0 : 0 < L := by omega
  have hrd : (t + 1) % L < synth.bus.buf.length :=
    lt_of_lt_of_le (Nat.mod_lt _ hL0) h.block
  have hadv := bus_advance_read_at L t synth.bus hL0 h
  unfold render_sample
  rw [h.readPtr_eq, h.readPos_eq, List.getElem?_eq_getElem hrd]
  simp only [hd, if_true]
  rw [hadv]
  rw [bus_store_advance_at L t
    { synth.bus with readPos := (t + 2) % L, readPtr := (t + 2) % L } _ hL0
    h.len_eq h.block h.writePos_eq h.writePtr_eq]
  refine ⟨_, _, rfl, rfl, rfl, rfl, ?_⟩
  exact ⟨h.len_eq, by simpa using h.block, rfl, rfl, rfl, rfl⟩

theorem render_run_zero (cfg : SynthConfig) (synth : Synth) (rng : Nat) :
    render_run cfg 0 synth rng = some (synth, rng) := rfl

theorem render_run_head (cfg : SynthConfig) (n : Nat) (synth : Synth) (rng : Nat) :
    render_run cfg (n + 1) synth rng
      = match render_sample cfg synth rng with
        | none => none
        | some r => render_run cfg n r.synth r.rng := by
  unfold render_run
  rw [synth_render_slice]
  cases render_sample cfg synth rng with
  | none => rfl
  | some r =>
    dsimp only
    cases synth_render_slice cfg n r.synth r.rng with
    | none => rfl
    | some q => rfl

theorem render_run_succ (cfg : SynthConfig) (n : Nat) (synth : Synth) (rng : Nat) :
    render_run cfg (n + 1) synth rng
      = match render_run cfg n synth rng with
        | none => none
        | some st => (render_sample cfg st.1 st.2).map (fun r => (r.synth, r.rng)) := by
  induction n generalizing synth rng with
  | zero =>
    rw [render_run_head, render_run_zero]
    dsimp only
    cases render_sample cfg synth rng with
    | none => rfl
    | some r => rfl
  | succ n ih =>
    rw [render_run_head, render_run_head]
    cases render_sample cfg synth rng with
    | none => rfl
    | some r => exact ih r.synth r.rng

/-- The bus along a run of render steps that starts right after
`synth_bus_init`: every step succeeds, the cursors follow `BusAt`, each of the
last `L` stored values is still in its slot, and the slots not yet written
hold 0. -/
theorem render_run_bus (cfg : SynthConfig) (hd : cfg.SYNTH_USE_DELAY = true)
    (L : Nat) (hL : 2 ≤ L) (s0 : Synth) (rng : Nat)
    (h0 : BusAt L 0 s0.bus) (hz : ∀ i, i < L → s0.bus.buf[i]? = some 0) (t : Nat) :
    ∃ st, render_run cfg t s0 rng = some st ∧ BusAt L t st.1.bus ∧
      (∀ j, j < t → t ≤ j + L →
        ∃ r w, render_step_at cfg j s0 rng = some r ∧ r.stored = some w ∧
          st.1.bus.buf[j % L]? = some w) ∧
      (∀ i, t ≤ i → i < L → st.1.bus.buf[i]? = some 0) := by
  have hL0 : 0 < L := by omega
  induction t with
  | zero =>
    exact ⟨(s0, rng), rfl, h0, fun j hj => absurd hj (Nat.not_lt_zero _), fun i _ hi => hz i hi⟩
  | succ t ih =>
    obtain ⟨st, hrun, hat, hist, hzero⟩ := ih
    obtain ⟨r, w, hr, _, hw, hbuf, hat1⟩ := render_sample_bus cfg hd L t hL st.1 st.2 hat
    have hstep : render_step_at cfg t s0 rng = some r := by
      unfold render_step_at; rw [hrun]; exact hr
    have hlt : t % L < st.1.bus.buf.length := lt_of_lt_of_le (Nat.mod_lt _ hL0) hat.block
    refine ⟨(r.synth, r.rng), ?_, hat1, ?_, ?_⟩
    · rw [render_run_succ, hrun]; dsimp only; rw [hr]; rfl
    · intro j hj hjl
      show ∃ r1 w1, _ ∧ _ ∧ r.synth.bus.buf[j % L]? = some w1
      rw [hbuf]
      rcases Nat.lt_succ_iff_lt_or_eq.mp hj with hlt1 | heq
      · obtain ⟨r1, w1, a1, a2, a3⟩ := hist j hlt1 (by omega)
        refine ⟨r1, w1, a1, a2, ?_⟩
        rw [List.getElem?_set_ne (Ne.symm (mod_ne_of_close j t L hlt1 (by omega)))]
        exact a3
      · subst heq
        exact ⟨r, w, hstep, hw, List.getElem?_set_self hlt⟩
    · intro i hi hiL
      show r.synth.bus.buf[i]? = some 0
      rw [hbuf, List.getElem?_set_ne (by rw [Nat.mod_eq_of_lt (by omega)]; omega)]
      exact hzero i (by omega) hiL

theorem synth_bus_init_at (bus : SynthFXBus) (buf : List Int) (L decay : Nat) (hL : 2 ≤ L)
    (hbuf : L ≤ buf.length) :
    ∃ bus0, synth_bus_init bus buf L decay = some bus0 ∧ BusAt L 0 bus0 ∧
      (∀ i, i < L → bus0.buf[i]? = some 0) ∧
      bus0.readPos = 1 ∧ bus0.writePos = 0 ∧ bus0.readPtr = 1 ∧ bus0.writePtr = 0 ∧
      bus0.len = L := by
  unfold synth_bus_init
  rw [if_pos hbuf]
  refine ⟨_, rfl, ⟨rfl, ?_, ?_, rfl, ?_, rfl⟩, ?_, rfl, rfl, rfl, rfl, rfl⟩
  · simp
  · show 1 = (0 + 1) % L
    rw [Nat.mod_eq_of_lt (by omega)]
  · show 0 = 0 % L
    rw [Nat.zero_mod]
  · intro i hi
    show (List.replicate L 0 ++ List.drop L buf)[i]? = some 0
    rw [List.getElem?_append_left (by simpa using hi)]
    simp [hi]

/-- C8: with the delay line compiled in, for every buffer length `L ≥ 2` and
every run of render steps that starts right after `synth_bus_init`, step `t`
(0-based) succeeds, the sample it loads through `readPtr` is 0 when
`t < L - 1`, and when `t ≥ L - 1` it is the value that step `t - (L - 1)`
stored through `writePtr`. -/
theorem delay_read_is_earlier_store (cfg : SynthConfig) (hd : cfg.SYNTH_USE_DELAY = true)
    (synth : Synth) (rng : Nat) (buf : List Int) (L decay : Nat) (hL : 2 ≤ L)
    (hbuf : L ≤ buf.length) (t : Nat) :
    ∃ bus r, synth_bus_init synth.bus buf L decay = some bus ∧
      render_step_at cfg t { synth with bus := bus } rng = some r ∧
      (t < L - 1 → r.delayed = 0) ∧
      (L - 1 ≤ t →
        ∃ r0, render_step_at cfg (t - (L - 1)) { synth with bus := bus } rng = some r0 ∧
          r0.stored = some r.delayed) := by
  obtain ⟨bus, hinit, hat0, hz, _⟩ := synth_bus_init_at synth.bus buf L decay hL hbuf
  obtain ⟨st, hrun, hat, hist, hzero⟩ :=
    render_run_bus cfg hd L hL { synth with bus := bus } rng hat0 hz t
  obtain ⟨r, w, hr, hread, _⟩ := render_sample_bus cfg hd L t hL st.1 st.2 hat
  have hstep : render_step_at cfg t { synth with bus := bus } rng = some r := by
    unfold render_step_at; rw [hrun]; exact hr
  refine ⟨bus, r, hinit, hstep, ?_, ?_⟩
  · intro hlt
    have h1 : (t + 1) % L = t + 1 := Nat.mod_eq_of_lt (by omega)
    rw [h1, hzero (t + 1) (by omega) (by omega)] at hread
    exact (Option.some.inj hread).symm
  · intro hge
    obtain ⟨r0, w0, a1, a2, a3⟩ := hist (t - (L - 1)) (by omega) (by omega)
    have h1 : (t - (L - 1)) % L = (t + 1) % L := by
      rw [← Nat.add_mod_right (t - (L - 1)) L]
      congr 1
      omega
    rw [h1, hread] at a3
    exact ⟨r0, a1, by rw [a2, ← Option.some.inj a3]⟩

theorem delay_read_is_earlier_store_witness :
    ∃ bus r, synth_bus_init (zeroSynth 2).bus [5, 6, 7] 3 1 = some bus ∧
      render_step_at demoConfig 4 { zeroSynth 2 with bus := bus } 0 = some r ∧
      (4 < 3 - 1 → r.delayed = 0) ∧
      (3 - 1 ≤ 4 →
        ∃ r0, render_step_at demoConfig (4 - (3 - 1)) { zeroSynth 2 with bus := bus } 0
            = some r0 ∧
          r0.stored = some r.delayed) :=
  delay_read_is_earlier_store demoConfig rfl (zeroSynth 2) 0 [5, 6, 7] 3 1 (by decide)
    (by decide) 4

/-- C9: with the delay line compiled in, for every buffer length `L ≥ 2`,
`synth_bus_init` leaves `readPos = 1`, `writePos = 0` with both pointers on
those elements, and after exactly `L` render steps the cursors are back at
`readPos = 1`, `writePos = 0`, with `readPtr` and `writePtr` again addressing
elements 1 and 0 of the buffer; after fewer steps (but at least one) the
write cursor is not at 0. -/
theorem delay_cursors_return_after_len (cfg : SynthConfig) (hd : cfg.SYNTH_USE_DELAY = true)
    (synth : Synth) (rng : Nat) (buf : List Int) (L decay : Nat) (hL : 2 ≤ L)
    (hbuf : L ≤ buf.length) :
    ∃ bus st, synth_bus_init synth.bus buf L decay = some bus ∧
      bus.readPos = 1 ∧ bus.writePos = 0 ∧ bus.readPtr = 1 ∧ bus.writePtr = 0 ∧
      render_run cfg L { synth with bus := bus } rng = some st ∧
      st.1.bus.readPos = 1 ∧ st.1.bus.writePos = 0 ∧
      st.1.bus.readPtr = 1 ∧ st.1.bus.writePtr = 0 ∧ st.1.bus.len = L ∧
      (∀ t, 0 < t → t < L →
        ∃ st1, render_run cfg t { synth with bus := bus } rng = some st1 ∧
          st1.1.bus.writePos ≠ 0) := by
  obtain ⟨bus, hinit, hat0, hz, b1, b2, b3, b4, _⟩ :=
    synth_bus_init_at synth.bus buf L decay hL hbuf
  obtain ⟨st, hrun, hat, _, _⟩ :=
    render_run_bus cfg hd L hL { synth with bus := bus } rng hat0 hz L
  have hr : st.1.bus.readPos = 1 := by
    rw [hat.readPos_eq, Nat.add_mod_left, Nat.mod_eq_of_lt (by omega)]
  have hw : st.1.bus.writePos = 0 := by rw [hat.writePos_eq, Nat.mod_self]
  refine ⟨bus, st, hinit, b1, b2, b3, b4, hrun, hr, hw, by rw [hat.readPtr_eq, hr],
    by rw [hat.writePtr_eq, hw], hat.len_eq, ?_⟩
  intro t ht htL
  obtain ⟨st1, hrun1, hat1, _, _⟩ :=
    render_run_bus cfg hd L hL { synth with bus := bus } rng hat0 hz t
  refine ⟨st1, hrun1, ?_⟩
  rw [hat1.writePos_eq, Nat.mod_eq_of_lt htL]
  omega

theorem delay_cursors_return_after_len_witness :
    ∃ bus st, synth_bus_init (zeroSynth 2).bus [5, 6, 7] 3 1 = some bus ∧
      bus.readPos = 1 ∧ bus.writePos = 0 ∧ bus.readPtr = 1 ∧ bus.writePtr = 0 ∧
      render_run demoConfig 3 { zeroSynth 2 with bus := bus } 0 = some st ∧
      st.1.bus.readPos = 1 ∧ st.1.bus.writePos = 0 ∧
      st.1.bus.readPtr = 1 ∧ st.1.bus.writePtr = 0 ∧ st.1.bus.len = 3 ∧
      (∀ t, 0 < t → t < 3 →
        ∃ st1, render_run demoConfig t { zeroSynth 2 with bus := bus } 0 = some st1 ∧
          st1.1.bus.writePos ≠ 0) :=
  delay_cursors_return_after_len demoConfig rfl (zeroSynth 2) 0 [5, 6, 7] 3 1 (by decide)
    (by decide)

/-- For a bus of length `L ≥ 2` both cursors stay below `L` along every run
of render steps that starts right after `synth_bus_init`. -/
theorem delay_cursors_in_range_of_two_le (cfg : SynthConfig)
    (hd : cfg.SYNTH_USE_DELAY = true) (synth : Synth) (rng : Nat) (buf : List Int)
    (L decay : Nat) (hL : 2 ≤ L) (hbuf : L ≤ buf.length) (t : Nat) :
    ∃ bus st, synth_bus_init synth.bus buf L decay = some bus ∧
      render_run cfg t { synth with bus := bus } rng = some st ∧
      st.1.bus.readPos < L ∧ st.1.bus.writePos < L := by
  obtain ⟨bus, hinit, hat0, hz, _⟩ := synth_bus_init_at synth.bus buf L decay hL hbuf
  obtain ⟨st, hrun, hat, _, _⟩ :=
    render_run_bus cfg hd L hL { synth with bus := bus } rng hat0 hz t
  exact ⟨bus, st, hinit, hrun, by rw [hat.readPos_eq]; exact Nat.mod_lt _ (by omega),
    by rw [hat.writePos_eq]; exact Nat.mod_lt _ (by omega)⟩

/-- C10: the read cursor is outside `[0, len)` for the bus of length 1 that
`synth_init` creates. For every configuration with at least one voice,
`synth_init` succeeds and leaves `len = 1`, a one-element block, and
`readPos = readPtr = 1`, which is not below `len`; the first render step then
loads through `readPtr` outside the block, with or without the delay line. -/
theorem synth_init_bus_read_cursor_outside (cfg : SynthConfig)
    (hP : 0 < cfg.SYNTH_POLYPHONY) (mem : Synth) (cell : Int)
    (hlen : mem.voices.length = cfg.SYNTH_POLYPHONY) :
    ∃ s0 rng, synth_init cfg mem cell = some (s0, rng) ∧
      s0.bus.len = 1 ∧ s0.bus.buf.length = 1 ∧ s0.bus.readPos = 1 ∧ s0.bus.readPtr = 1 ∧
      ¬ (s0.bus.readPos < s0.bus.len) ∧
      render_sample cfg s0 rng = none := by
  obtain ⟨s0, h1, _, _, hb⟩ := synth_init_spec cfg mem cell hP hlen
  refine ⟨s0, _, h1, by rw [hb], by rw [hb]; rfl, by rw [hb], by rw [hb], by rw [hb]; decide, ?_⟩
  unfold render_sample
  rw [hb]
  rfl

theorem synth_init_bus_read_cursor_outside_witness :
    ∃ s0 rng, synth_init demoConfig (zeroSynth 6) 0 = some (s0, rng) ∧
      s0.bus.len = 1 ∧ s0.bus.buf.length = 1 ∧ s0.bus.readPos = 1 ∧ s0.bus.readPtr = 1 ∧
      ¬ (s0.bus.readPos < s0.bus.len) ∧
      render_sample demoConfig s0 rng = none :=
  synth_init_bus_read_cursor_outside demoConfig (by decide) (zeroSynth 6) 0
    (by simp [zeroSynth, demoConfig])

/-! ## Oscillator phase -/

theorem truncPhase_range (cfg : SynthConfig) (hT : 0 < cfg.TAU) (x : ℚ) :
    0 ≤ truncPhase cfg x ∧ truncPhase cfg x < cfg.TAU := by
  unfold truncPhase
  have h1 : (⌊x / cfg.TAU⌋ : ℚ) ≤ x / cfg.TAU := Int.floor_le _
  have h2 : x / cfg.TAU < ⌊x / cfg.TAU⌋ + 1 := Int.lt_floor_add_one _
  rw [le_div_iff₀ hT] at h1
  rw [div_lt_iff₀ hT] at h2
  constructor <;> nlinarith

/-- Each phase-accumulating waveform function stores
`truncPhase(osc->phase + osc->freq + lfo)` as the new phase. -/
theorem osc_apply_phase (cfg : SynthConfig) (fn : OscFn) (hfn : fn.accumulatesPhase = true)
    (osc : SynthOsc) (lfo lfo2 : ℚ) (rng : Nat) :
    (osc_apply cfg fn osc lfo lfo2 rng).2.1.phase
      = truncPhase cfg (osc.phase + osc.freq + lfo) := by
  cases fn <;> first | rfl | exact absurd hfn (by decide)

theorem osc_run_phase_range (cfg : SynthConfig) (hT : 0 < cfg.TAU)
    (calls : List (OscFn × ℚ × ℚ)) (hne : calls ≠ [])
    (hacc : ∀ c ∈ calls, c.1.accumulatesPhase = true) (osc : SynthOsc) (rng : Nat) :
    0 ≤ (osc_run cfg calls osc rng).1.phase ∧ (osc_run cfg calls osc rng).1.phase < cfg.TAU := by
  induction calls generalizing osc rng with
  | nil => exact absurd rfl hne
  | cons c cs ih =>
    rw [osc_run]
    by_cases hcs : cs = []
    · subst hcs
      rw [osc_run, osc_apply_phase cfg c.1 (hacc c (List.mem_cons_self _ _))]
      exact truncPhase_range cfg hT _
    · exact ih hcs (fun x hx => hacc x (List.mem_cons_of_mem _ hx)) _ _

/-- C2: with `truncPhase` the wrap modulo `TAU` (`TAU > 0` standing for 2π),
for every oscillator state, every modulation input and every non-empty
sequence of calls to the phase-accumulating waveform functions
(`synth_osc_sin`, `_sin_dc`, `_rect`, `_rect_phase`, `_rect_dc`, `_saw`,
`_saw_dc`, `_tri`, `_tri_dc`, `_wtable_morph`), the phase stored after the
last call, hence after each call, lies in `[0, TAU)`. -/
theorem osc_phase_stays_wrapped (cfg : SynthConfig) (hT : 0 < cfg.TAU)
    (calls : List (OscFn × ℚ × ℚ)) (hne : calls ≠ [])
    (hacc : ∀ c ∈ calls, c.1.accumulatesPhase = true) (osc : SynthOsc) (rng : Nat) :
    0 ≤ (osc_run cfg calls osc rng).1.phase ∧
    (osc_run cfg calls osc rng).1.phase < cfg.TAU ∧
    (∀ fn lfo lfo2, fn.accumulatesPhase = true →
      0 ≤ (osc_apply cfg fn osc lfo lfo2 rng).2.1.phase ∧
      (osc_apply cfg fn osc lfo lfo2 rng).2.1.phase < cfg.TAU) := by
  refine ⟨(osc_run_phase_range cfg hT calls hne hacc osc rng).1,
    (osc_run_phase_range cfg hT calls hne hacc osc rng).2, ?_⟩
  intro fn lfo lfo2 hfn
  rw [osc_apply_phase cfg fn hfn]
  exact truncPhase_range cfg hT _

theorem osc_phase_stays_wrapped_witness :
    0 ≤ (osc_run demoConfig [(.sin, 100, 0), (.saw_dc, -7, 1), (.wtable_morph, 3, 1 / 2)]
          { zeroOsc with phase := 50, freq := 1 / 3 } 0).1.phase ∧
    (osc_run demoConfig [(.sin, 100, 0), (.saw_dc, -7, 1), (.wtable_morph, 3, 1 / 2)]
          { zeroOsc with phase := 50, freq := 1 / 3 } 0).1.phase < demoConfig.TAU ∧
    (∀ fn lfo lfo2, fn.accumulatesPhase = true →
      0 ≤ (osc_apply demoConfig fn { zeroOsc with phase := 50, freq := 1 / 3 }
            lfo lfo2 0).2.1.phase ∧
      (osc_apply demoConfig fn { zeroOsc with phase := 50, freq := 1 / 3 }
            lfo lfo2 0).2.1.phase < demoConfig.TAU) :=
  osc_phase_stays_wrapped demoConfig (by norm_num [demoConfig])
    [(.sin, 100, 0), (.saw_dc, -7, 1), (.wtable_morph, 3, 1 / 2)] (by simp)
    (by
      intro c hc
      simp only [List.mem_cons, List.mem_singleton, List.not_mem_nil, or_false] at hc
      rcases hc with rfl | rfl | rfl <;> rfl)
    { zeroOsc with phase := 50, freq := 1 / 3 } 0

/-! ## Cursor order of the delay bus -/

theorem render_sample_nodelay (cfg : SynthConfig) (hd : cfg.SYNTH_USE_DELAY = false)
    (synth : Synth) (rng : Nat) (hptr : synth.bus.readPtr < synth.bus.buf.length) :
    ∃ r, render_sample cfg synth rng = some r ∧ r.synth.bus = synth.bus ∧
      r.stored = none ∧ synth.bus.buf[synth.bus.readPtr]? = some r.delayed := by
  unfold render_sample
  rw [List.getElem?_eq_getElem hptr]
  simp only [hd]
  exact ⟨_, rfl, rfl, rfl, rfl⟩

theorem render_run_nodelay (cfg : SynthConfig) (hd : cfg.SYNTH_USE_DELAY = false)
    (synth : Synth) (rng : Nat) (hptr : synth.bus.readPtr < synth.bus.buf.length) (t : Nat) :
    ∃ st, render_run cfg t synth rng = some st ∧ st.1.bus = synth.bus := by
  induction t with
  | zero => exact ⟨(synth, rng), rfl, rfl⟩
  | succ t ih =>
    obtain ⟨st, hrun, hbus⟩ := ih
    obtain ⟨r, hr, hb, _, _⟩ := render_sample_nodelay cfg hd st.1 st.2 (by rw [hbus]; exact hptr)
    refine ⟨(r.synth, r.rng), ?_, hb.trans hbus⟩
    rw [render_run_succ, hrun]; dsimp only; rw [hr]; rfl

/-- Along every run of render steps that starts right after `synth_bus_init`
with `L ≥ 2`, with the delay line compiled in or out, every step succeeds and
the read cursor is the successor of the write cursor modulo `L`. -/
theorem render_run_read_leads (cfg : SynthConfig) (synth : Synth) (rng : Nat)
    (buf : List Int) (L decay : Nat) (hL : 2 ≤ L) (hbuf : L ≤ buf.length) (t : Nat) :
    ∃ bus st, synth_bus_init synth.bus buf L decay = some bus ∧
      render_run cfg t { synth with bus := bus } rng = some st ∧
      st.1.bus.len = L ∧ st.1.bus.readPos < L ∧ st.1.bus.writePos < L ∧
      st.1.bus.readPos = (st.1.bus.writePos + 1) % L ∧
      (cfg.SYNTH_USE_DELAY = true → st.1.bus.writePos = t % L) := by
  obtain ⟨bus, hinit, hat0, hz, b1, b2, b3, _, b5⟩ :=
    synth_bus_init_at synth.bus buf L decay hL hbuf
  cases hd : cfg.SYNTH_USE_DELAY with
  | true =>
    obtain ⟨st, hrun, hat, _, _⟩ :=
      render_run_bus cfg hd L hL { synth with bus := bus } rng hat0 hz t
    refine ⟨bus, st, hinit, hrun, hat.len_eq, ?_, ?_, ?_, fun _ => hat.writePos_eq⟩
    · rw [hat.readPos_eq]; exact Nat.mod_lt _ (by omega)
    · rw [hat.writePos_eq]; exact Nat.mod_lt _ (by omega)
    · rw [hat.readPos_eq, hat.writePos_eq, Nat.mod_add_mod]
  | false =>
    have hptr : bus.readPtr < bus.buf.length := by
      rw [b3]; exact lt_of_lt_of_le (by omega) hat0.block
    obtain ⟨st, hrun, hbus⟩ :=
      render_run_nodelay cfg hd { synth with bus := bus } rng hptr t
    have hbus1 : st.1.bus = bus := hbus
    refine ⟨bus, st, hinit, hrun, by rw [hbus1, b5], by rw [hbus1, b1]; omega,
      by rw [hbus1, b2]; omega, ?_, fun h => absurd h (by simp)⟩
    rw [hbus1, b1, b2, Nat.mod_eq_of_lt (by omega)]

/-- C11 (counterexample): for a bus of length 3, after `synth_bus_init` and one
render step the write cursor is 1 and the read cursor 2, so the write cursor
is not `(readPos + 1) mod 3`. -/
theorem delay_write_cursor_not_ahead :
    ∃ bus st, synth_bus_init (zeroSynth 2).bus [5, 6, 7] 3 1 = some bus ∧
      render_run demoConfig 1 { zeroSynth 2 with bus := bus } 0 = some st ∧
      st.1.bus.writePos = 1 ∧ st.1.bus.readPos = 2 ∧
      st.1.bus.writePos ≠ (st.1.bus.readPos + 1) % 3 := by
  obtain ⟨bus, st, h1, h2, _, _, _, h6, h7⟩ :=
    render_run_read_leads demoConfig (zeroSynth 2) 0 [5, 6, 7] 3 1 (by decide) (by decide) 1
  have hw : st.1.bus.writePos = 1 := h7 rfl
  have hr : st.1.bus.readPos = 2 := by rw [h6, hw]
  exact ⟨bus, st, h1, h2, hw, hr, by rw [hw, hr]; decide⟩

/-- C11 (amended): for every buffer length `len ≥ 2`, after `synth_bus_init`
and after any number of render steps (each of which succeeds), both cursors
are below `len` and the read cursor is exactly one step ahead of the write
cursor: `readPos = (writePos + 1) mod len`. -/
theorem delay_read_cursor_one_ahead (cfg : SynthConfig) (synth : Synth) (rng : Nat)
    (buf : List Int) (len decay : Nat) (hlen : 2 ≤ len) (hbuf : len ≤ buf.length) (t : Nat) :
    ∃ bus st, synth_bus_init synth.bus buf len decay = some bus ∧
      render_run cfg t { synth with bus := bus } rng = some st ∧
      st.1.bus.len = len ∧ st.1.bus.readPos < len ∧ st.1.bus.writePos < len ∧
      st.1.bus.readPos = (st.1.bus.writePos + 1) % len := by
  obtain ⟨bus, st, h1, h2, h3, h4, h5, h6, _⟩ :=
    render_run_read_leads cfg synth rng buf len decay hlen hbuf t
  exact ⟨bus, st, h1, h2, h3, h4, h5, h6⟩

theorem delay_read_cursor_one_ahead_witness :
    ∃ bus st, synth_bus_init (zeroSynth 2).bus [5, 6, 7, 8] 4 2 = some bus ∧
      render_run demoConfig 9 { zeroSynth 2 with bus := bus } 0 = some st ∧
      st.1.bus.len = 4 ∧ st.1.bus.readPos < 4 ∧ st.1.bus.writePos < 4 ∧
      st.1.bus.readPos = (st.1.bus.writePos + 1) % 4 :=
  delay_read_cursor_one_ahead demoConfig (zeroSynth 2) 0 [5, 6, 7, 8] 4 2 (by decide)
    (by decide) 9

/-! ## Envelope: the sustain phase is never entered -/

theorem adsr_update_not_sustain (env : ADSR) (envMod : ℚ) (h : env.phase ≠ .SUSTAIN) :
    (synth_adsr_update env envMod).2.phase ≠ .SUSTAIN := by
  unfold synth_adsr_update
  cases hp : env.phase <;> simp only [] <;> (try split_ifs) <;> simp_all

theorem adsr_run_not_sustain (env : ADSR) (mods : List ℚ) (h : env.phase ≠ .SUSTAIN) :
    (adsr_run env mods).phase ≠ .SUSTAIN := by
  induction mods using List.reverseRecOn with
  | nil => exact h
  | append_singleton ms m ih =>
    rw [adsr_run_snoc]
    exact adsr_update_not_sustain _ _ ih

/-- C16: for every envelope whose phase is not `SUSTAIN` and every `envMod`,
the phase after `synth_adsr_update` is not `SUSTAIN`, and neither is it after
any sequence of updates; a `DECAY` envelope with `currGain ≤ sustainGain`
moves to `RELEASE` with its gain unchanged and returned; and no envelope
produced by `synth_adsr_init` is in `SUSTAIN` after any sequence of updates. -/
theorem adsr_sustain_unreachable (env : ADSR) (envMod : ℚ) (h : env.phase ≠ .SUSTAIN) :
    (synth_adsr_update env envMod).2.phase ≠ .SUSTAIN ∧
    (∀ mods, (adsr_run env mods).phase ≠ .SUSTAIN) ∧
    (env.phase = .DECAY → env.currGain ≤ env.sustainGain →
      synth_adsr_update env envMod = (env.currGain, { env with phase := .RELEASE })) ∧
    (∀ (cfg : SynthConfig) (attRate decayRate releaseRate attGain sustainGain : ℚ)
      (mods : List ℚ),
      (adsr_run (synth_adsr_init cfg attRate decayRate releaseRate attGain sustainGain)
        mods).phase ≠ .SUSTAIN) := by
  refine ⟨adsr_update_not_sustain env envMod h, fun mods => adsr_run_not_sustain env mods h,
    ?_, ?_⟩
  · intro hp hle
    unfold synth_adsr_update
    simp only [hp]
    rw [if_neg (not_lt.mpr hle)]
  · intro cfg a d r g s mods
    exact adsr_run_not_sustain _ mods (by simp [synth_adsr_init])

theorem adsr_sustain_unreachable_witness :
    (synth_adsr_update { synth_adsr_init demoConfig 1 1 1 1 (1 / 2) with
        currGain := 100, phase := .DECAY } 1).2.phase ≠ .SUSTAIN ∧
    (∀ mods, (adsr_run { synth_adsr_init demoConfig 1 1 1 1 (1 / 2) with
        currGain := 100, phase := .DECAY } mods).phase ≠ .SUSTAIN) ∧
    (({ synth_adsr_init demoConfig 1 1 1 1 (1 / 2) with
        currGain := 100, phase := .DECAY } : ADSR).phase = .DECAY →
      ({ synth_adsr_init demoConfig 1 1 1 1 (1 / 2) with
        currGain := 100, phase := .DECAY } : ADSR).currGain
        ≤ ({ synth_adsr_init demoConfig 1 1 1 1 (1 / 2) with
        currGain := 100, phase := .DECAY } : ADSR).sustainGain →
      synth_adsr_update { synth_adsr_init demoConfig 1 1 1 1 (1 / 2) with
        currGain := 100, phase := .DECAY } 1
        = (({ synth_adsr_init demoConfig 1 1 1 1 (1 / 2) with
            currGain := 100, phase := .DECAY } : ADSR).currGain,
           { ({ synth_adsr_init demoConfig 1 1 1 1 (1 / 2) with
            currGain := 100, phase := .DECAY } : ADSR) with phase := .RELEASE })) ∧
    (∀ (cfg : SynthConfig) (attRate decayRate releaseRate attGain sustainGain : ℚ)
      (mods : List ℚ),
      (adsr_run (synth_adsr_init cfg attRate decayRate releaseRate attGain sustainGain)
        mods).phase ≠ .SUSTAIN) :=
  adsr_sustain_unreachable { synth_adsr_init demoConfig 1 1 1 1 (1 / 2) with
      currGain := 100, phase := .DECAY } 1 (by simp)

/-! ## What an acquisition resets -/

/-- The slot that `synth_new_voice` hands out holds `synth_voice_init` of its
previous contents. -/
theorem synth_new_voice_slot (cfg : SynthConfig) (synth : Synth) (old : SynthVoice)
    (hold : synth.voices[synth.nextVoice]? = some old) :
    ∃ s1, synth_new_voice cfg synth = some (synth.nextVoice, s1) ∧
      s1.voices[synth.nextVoice]? = some (synth_voice_init cfg old 0) := by
  have hlt : synth.nextVoice < synth.voices.length := by
    by_contra hge
    rw [List.getElem?_eq_none (not_lt.mp hge)] at hold
    cases hold
  unfold synth_new_voice
  rw [hold]
  exact ⟨_, rfl, List.getElem?_set_self hlt⟩

/-- C15 (counterexample): two synth states that differ only in the carrier
oscillator `osc[0]` of the slot at the cursor; the voices that
`synth_new_voice` returns differ, each keeps the `osc[0]` its slot held. -/
theorem synth_new_voice_keeps_carrier :
    ∃ sa sb va vb,
      synth_new_voice demoConfig
        { zeroSynth 2 with voices := [{ zeroVoice with osc0 := { zeroOsc with amp := 1 } },
                                      zeroVoice] } = some (0, sa) ∧
      synth_new_voice demoConfig (zeroSynth 2) = some (0, sb) ∧
      sa.voices[0]? = some va ∧ sb.voices[0]? = some vb ∧
      va.osc0.amp = 1 ∧ vb.osc0.amp = 0 ∧ va ≠ vb := by
  obtain ⟨sa, a1, a2⟩ := synth_new_voice_slot demoConfig
    { zeroSynth 2 with voices := [{ zeroVoice with osc0 := { zeroOsc with amp := 1 } },
                                  zeroVoice] }
    { zeroVoice with osc0 := { zeroOsc with amp := 1 } } rfl
  obtain ⟨sb, b1, b2⟩ := synth_new_voice_slot demoConfig (zeroSynth 2) zeroVoice rfl
  refine ⟨sa, sb, _, _, a1, b1, a2, b2, rfl, rfl, ?_⟩
  intro h
  have h1 : (1 : ℚ) = 0 := congrArg (fun v => v.osc0.amp) h
  norm_num at h1

/-- C15 (amended): for every two synth states with the same cursor, whatever
the slot at the cursor holds in each, `synth_new_voice` returns that slot in
both, and the two returned voices agree on what the acquisition sets: flags
are 0 and each modulation oscillator has the no-op function, phase 0,
frequency `FREQ_TO_RAD(0)`, gain 0 and DC offset 0. The envelope, the two
carrier oscillators and the wavetable pointers of the modulation oscillators
of each returned voice are those its slot held before. -/
theorem synth_new_voice_resets_modulators (cfg : SynthConfig) (s1 s2 : Synth)
    (old1 old2 : SynthVoice) (hcur : s1.nextVoice = s2.nextVoice)
    (h1 : s1.voices[s1.nextVoice]? = some old1) (h2 : s2.voices[s2.nextVoice]? = some old2) :
    ∃ t1 t2 v1 v2,
      synth_new_voice cfg s1 = some (s1.nextVoice, t1) ∧
      synth_new_voice cfg s2 = some (s1.nextVoice, t2) ∧
      t1.voices[s1.nextVoice]? = some v1 ∧ t2.voices[s1.nextVoice]? = some v2 ∧
      v1.flags = 0 ∧ v2.flags = 0 ∧
      v1.lfoPitch = { old1.lfoPitch with fn := .nop, phase := 0, freq := cfg.FREQ_TO_RAD 0,
                                         amp := 0, dcOffset := 0 } ∧
      v1.lfoMorph = { old1.lfoMorph with fn := .nop, phase := 0, freq := cfg.FREQ_TO_RAD 0,
                                         amp := 0, dcOffset := 0 } ∧
      v2.lfoPitch = { old2.lfoPitch with fn := .nop, phase := 0, freq := cfg.FREQ_TO_RAD 0,
                                         amp := 0, dcOffset := 0 } ∧
      v2.lfoMorph = { old2.lfoMorph with fn := .nop, phase := 0, freq := cfg.FREQ_TO_RAD 0,
                                         amp := 0, dcOffset := 0 } ∧
      v1.env = old1.env ∧ v1.osc0 = old1.osc0 ∧ v1.osc1 = old1.osc1 ∧
      v2.env = old2.env ∧ v2.osc0 = old2.osc0 ∧ v2.osc1 = old2.osc1 := by
  obtain ⟨t1, a1, a2⟩ := synth_new_voice_slot cfg s1 old1 h1
  obtain ⟨t2, b1, b2⟩ := synth_new_voice_slot cfg s2 old2 h2
  rw [← hcur] at b1 b2
  exact ⟨t1, t2, _, _, a1, b1, a2, b2, rfl, rfl, rfl, rfl, rfl, rfl, rfl, rfl, rfl, rfl, rfl,
    rfl⟩

theorem synth_new_voice_resets_modulators_witness :
    ∃ t1 t2 v1 v2,
      synth_new_voice demoConfig
        { zeroSynth 2 with voices := [{ zeroVoice with osc0 := { zeroOsc with amp := 1 } },
                                      zeroVoice] }
        = some (0, t1) ∧
      synth_new_voice demoConfig (zeroSynth 2) = some (0, t2) ∧
      t1.voices[0]? = some v1 ∧ t2.voices[0]? = some v2 ∧
      v1.flags = 0 ∧ v2.flags = 0 ∧
      v1.lfoPitch = { zeroOsc with fn := .nop, phase := 0, freq := demoConfig.FREQ_TO_RAD 0,
                                   amp := 0, dcOffset := 0 } ∧
      v1.lfoMorph = { zeroOsc with fn := .nop, phase := 0, freq := demoConfig.FREQ_TO_RAD 0,
                                   amp := 0, dcOffset := 0 } ∧
      v2.lfoPitch = { zeroOsc with fn := .nop, phase := 0, freq := demoConfig.FREQ_TO_RAD 0,
                                   amp := 0, dcOffset := 0 } ∧
      v2.lfoMorph = { zeroOsc with fn := .nop, phase := 0, freq := demoConfig.FREQ_TO_RAD 0,
                                   amp := 0, dcOffset := 0 } ∧
      v1.env = zeroVoice.env ∧ v1.osc0 = { zeroOsc with amp := 1 } ∧ v1.osc1 = zeroOsc ∧
      v2.env = zeroVoice.env ∧ v2.osc0 = zeroOsc ∧ v2.osc1 = zeroOsc :=
  synth_new_voice_resets_modulators demoConfig
    { zeroSynth 2 with voices := [{ zeroVoice with osc0 := { zeroOsc with amp := 1 } },
                                  zeroVoice] }
    (zeroSynth 2) { zeroVoice with osc0 := { zeroOsc with amp := 1 } } zeroVoice rfl rfl rfl

/-! ## 16-bit arithmetic: the clip after the fact -/

theorem wrap16_range (x : Int) : -32768 ≤ wrap16 x ∧ wrap16 x ≤ 32767 := by
  unfold wrap16
  omega

theorem wrap16_of_range (x : Int) (h1 : -32768 ≤ x) (h2 : x ≤ 32767) : wrap16 x = x := by
  unfold wrap16
  omega

theorem clamp16_range (x : Int) : -32768 ≤ clamp16 x ∧ clamp16 x ≤ 32767 := by
  unfold clamp16
  exact ⟨le_max_left _ _, max_le (by norm_num) (min_le_left _ _)⟩

theorem clamp16_of_range (x : Int) (h1 : -32768 ≤ x) (h2 : x ≤ 32767) : clamp16 x = x := by
  unfold clamp16
  rw [min_eq_right h2, max_eq_right h1]

/-- Applied to a value that was stored in an `int16_t`, the clip changes
nothing. -/
theorem clamp16_wrap16 (x : Int) : clamp16 (wrap16 x) = wrap16 x :=
  clamp16_of_range _ (wrap16_range x).1 (wrap16_range x).2

theorem tdiv_two_range (a : Int) (h1 : -65536 ≤ a) (h2 : a ≤ 65534) :
    -32768 ≤ a.tdiv 2 ∧ a.tdiv 2 ≤ 32767 := by
  rcases le_or_lt 0 a with h | h
  · rw [Int.tdiv_eq_ediv h (by norm_num)]; omega
  · have e : a.tdiv 2 = -((-a) / 2) := by
      rw [← Int.tdiv_eq_ediv (by omega) (by norm_num), Int.neg_tdiv, neg_neg]
    rw [e]; omega

/-- The mean of two clipped accumulators fits an `int16_t`. -/
theorem wrap16_mean (l r : Int) :
    wrap16 ((clamp16 l + clamp16 r).tdiv 2) = (clamp16 l + clamp16 r).tdiv 2 := by
  have hl := clamp16_range l
  have hr := clamp16_range r
  have h := tdiv_two_range (clamp16 l + clamp16 r) (by omega) (by omega)
  exact wrap16_of_range _ h.1 h.2

/-! ## Render steps: what a sample is made of -/

theorem bus_advance_read_decay (fx : SynthFXBus) : (bus_advance_read fx).decay = fx.decay := by
  unfold bus_advance_read
  split_ifs <;> rfl

theorem bus_advance_read_buf (fx : SynthFXBus) : (bus_advance_read fx).buf = fx.buf := by
  unfold bus_advance_read
  split_ifs <;> rfl

/-- A render step that succeeds writes the mean (C division) of the two
clipped accumulators, and with the delay line compiled in it stores the sum
of that mean and the clipped right accumulator, shifted by `decay`. -/
theorem render_sample_frame (cfg : SynthConfig) (synth : Synth) (rng : Nat) (r : SampleResult)
    (h : render_sample cfg synth rng = some r) :
    ∃ l rr, render_sums cfg synth rng = some (l, rr) ∧
      r.frame = (clamp16 l + clamp16 rr).tdiv 2 ∧
      (cfg.SYNTH_USE_DELAY = true →
        r.stored = some (wrap16 ((r.frame + clamp16 rr) >>> synth.bus.decay))) ∧
      (cfg.SYNTH_USE_DELAY = false → r.stored = none) ∧
      r.synth.lfoFilter = synth.lfoFilter ∧ r.synth.nextVoice = synth.nextVoice ∧
      r.synth.lfoEnvMod = (osc_call cfg synth.lfoEnvMod 0 0 rng).2.1 ∧
      r.synth.voices = (render_voices cfg (osc_call cfg synth.lfoEnvMod 0 0 rng).1 synth.voices
        { sumL := 0, sumR := 0, rng := (osc_call cfg synth.lfoEnvMod 0 0 rng).2.2 }).1 := by
  unfold render_sample at h
  unfold render_sums
  cases hd : synth.bus.buf[synth.bus.readPtr]? with
  | none => rw [hd] at h; cases h
  | some d =>
    rw [hd] at h
    dsimp only at h ⊢
    cases hdel : cfg.SYNTH_USE_DELAY with
    | false =>
      simp only [hdel, Bool.false_eq_true, if_false] at h
      cases h
      exact ⟨_, _, rfl, wrap16_mean _ _, fun hh => absurd hh (by simp), fun _ => rfl, rfl, rfl,
        rfl, rfl⟩
    | true =>
      simp only [hdel, if_true] at h
      cases hs : bus_store_advance (bus_advance_read synth.bus)
          (wrap16 ((wrap16 ((clamp16 (wrap16 ((render_voices cfg
            (osc_call cfg synth.lfoEnvMod 0 0 rng).1 synth.voices
            { sumL := 0, sumR := 0, rng := (osc_call cfg synth.lfoEnvMod 0 0 rng).2.2 }).2.sumL
            + d)) + clamp16 (wrap16 ((render_voices cfg
            (osc_call cfg synth.lfoEnvMod 0 0 rng).1 synth.voices
            { sumL := 0, sumR := 0, rng := (osc_call cfg synth.lfoEnvMod 0 0 rng).2.2 }).2.sumR
            + d))).tdiv 2) + clamp16 (wrap16 ((render_voices cfg
            (osc_call cfg synth.lfoEnvMod 0 0 rng).1 synth.voices
            { sumL := 0, sumR := 0, rng := (osc_call cfg synth.lfoEnvMod 0 0 rng).2.2 }).2.sumR
            + d))) >>> (bus_advance_read synth.bus).decay)) with
      | none => rw [hs] at h; cases h
      | some fx2 =>
        rw [hs] at h
        cases h
        refine ⟨_, _, rfl, wrap16_mean _ _, fun _ => ?_, fun hh => absurd hh (by simp), rfl, rfl,
          rfl, rfl⟩
        dsimp only
        rw [bus_advance_read_decay, wrap16_mean]

theorem render_sample_ready (cfg : SynthConfig) (synth : Synth) (rng : Nat)
    (h : BusReady cfg synth.bus) :
    ∃ r, render_sample cfg synth rng = some r ∧ BusReady cfg r.synth.bus := by
  unfold BusReady at h ⊢
  cases hd : cfg.SYNTH_USE_DELAY with
  | true =>
    simp only [hd, if_true] at h ⊢
    obtain ⟨L, t, hL, hat⟩ := h
    obtain ⟨r, _, hr, _, _, _, hat1⟩ := render_sample_bus cfg hd L t hL synth rng hat
    exact ⟨r, hr, L, t + 1, hL, hat1⟩
  | false =>
    simp only [hd, Bool.false_eq_true, if_false] at h ⊢
    obtain ⟨r, hr, hb, _, _⟩ := render_sample_nodelay cfg hd synth rng h
    exact ⟨r, hr, by rw [hb]; exact h⟩

/-- From a ready bus `synth_render_slice` returns, for every `len`. -/
theorem synth_render_slice_ready (cfg : SynthConfig) (len : Nat) (synth : Synth) (rng : Nat)
    (h : BusReady cfg synth.bus) :
    ∃ res, synth_render_slice cfg len synth rng = some res := by
  induction len generalizing synth rng with
  | zero => exact ⟨_, rfl⟩
  | succ n ih =>
    obtain ⟨r, hr, hready⟩ := render_sample_ready cfg synth rng h
    obtain ⟨res, hres⟩ := ih r.synth r.rng hready
    rw [synth_render_slice, hr]
    dsimp only
    rw [hres]
    exact ⟨_, rfl⟩

theorem synth_bus_init_ready (cfg : SynthConfig) (bus : SynthFXBus) (buf : List Int)
    (L decay : Nat) (hL : 2 ≤ L) (hbuf : L ≤ buf.length) :
    ∃ bus0, synth_bus_init bus buf L decay = some bus0 ∧ BusReady cfg bus0 := by
  obtain ⟨bus0, h1, hat, _, _, _, h3, _, _⟩ := synth_bus_init_at bus buf L decay hL hbuf
  refine ⟨bus0, h1, ?_⟩
  unfold BusReady
  split_ifs
  · exact ⟨L, 0, hL, hat⟩
  · rw [h3]; exact lt_of_lt_of_le (by omega) hat.block

/-! ## Render steps and idle voices -/

theorem render_voice_idle (cfg : SynthConfig) (envMod : ℚ) (voice : SynthVoice) (acc : MixAcc)
    (h : voice.env.phase = .IDLE) : render_voice cfg envMod voice acc = (voice, acc) := by
  unfold render_voice
  rw [if_neg (by simp [h])]

theorem render_voices_all_idle (cfg : SynthConfig) (envMod : ℚ) (voices : List SynthVoice)
    (acc : MixAcc) (h : ∀ v ∈ voices, v.env.phase = .IDLE) :
    render_voices cfg envMod voices acc = (voices, acc) := by
  induction voices with
  | nil => rfl
  | cons v vs ih =>
    rw [render_voices, ih (fun x hx => h x (List.mem_cons_of_mem _ hx))]
    dsimp only
    rw [render_voice_idle cfg envMod v acc (h v (List.mem_cons_self _ _))]

/-- Each slot of the voice array after the voice loop is `render_voice` of
what the slot held, for some value of the running accumulators. -/
theorem render_voices_getElem (cfg : SynthConfig) (envMod : ℚ) (voices : List SynthVoice)
    (acc : MixAcc) (i : Nat) (v : SynthVoice) (h : voices[i]? = some v) :
    ∃ acc1, (render_voices cfg envMod voices acc).1[i]?
      = some (render_voice cfg envMod v acc1).1 := by
  induction voices generalizing i with
  | nil => simp at h
  | cons x xs ih =>
    rw [render_voices]
    cases i with
    | zero =>
      simp only [List.getElem?_cons_zero, Option.some.injEq] at h
      subst h
      exact ⟨(render_voices cfg envMod xs acc).2, List.getElem?_cons_zero⟩
    | succ j =>
      rw [List.getElem?_cons_succ] at h
      obtain ⟨acc1, h1⟩ := ih j h
      exact ⟨acc1, by rw [List.getElem?_cons_succ]; exact h1⟩

/-- Replacing an idle voice by another idle voice changes nothing in the voice
loop but the contents of that slot. -/
theorem render_voices_set_idle (cfg : SynthConfig) (envMod : ℚ) (voices : List SynthVoice)
    (acc : MixAcc) (i : Nat) (v w : SynthVoice) (h : voices[i]? = some v)
    (hv : v.env.phase = .IDLE) (hw : w.env.phase = .IDLE) :
    render_voices cfg envMod (voices.set i w) acc
      = ((render_voices cfg envMod voices acc).1.set i w,
         (render_voices cfg envMod voices acc).2) := by
  induction voices generalizing i with
  | nil => simp at h
  | cons x xs ih =>
    cases i with
    | zero =>
      simp only [List.getElem?_cons_zero, Option.some.injEq] at h
      subst h
      rw [List.set_cons_zero, render_voices, render_voices]
      dsimp only
      rw [render_voice_idle cfg envMod w _ hw, render_voice_idle cfg envMod x _ hv]
      rfl
    | succ j =>
      rw [List.getElem?_cons_succ] at h
      rw [List.set_cons_succ, render_voices, render_voices, ih j h]
      rfl

theorem render_sample_idle_slot (cfg : SynthConfig) (synth : Synth) (rng : Nat) (i : Nat)
    (v : SynthVoice) (h : synth.voices[i]? = some v) (hv : v.env.phase = .IDLE)
    (r : SampleResult) (hr : render_sample cfg synth rng = some r) :
    r.synth.voices[i]? = some v := by
  obtain ⟨_, _, _, _, _, _, _, _, _, hvoices⟩ := render_sample_frame cfg synth rng r hr
  obtain ⟨acc1, h1⟩ := render_voices_getElem cfg (osc_call cfg synth.lfoEnvMod 0 0 rng).1
    synth.voices { sumL := 0, sumR := 0, rng := (osc_call cfg synth.lfoEnvMod 0 0 rng).2.2 } i v h
  rw [hvoices, h1, render_voice_idle cfg _ v acc1 hv]

theorem render_sample_set_idle (cfg : SynthConfig) (synth : Synth) (rng : Nat) (i : Nat)
    (v w : SynthVoice) (h : synth.voices[i]? = some v) (hv : v.env.phase = .IDLE)
    (hw : w.env.phase = .IDLE) :
    render_sample cfg { synth with voices := synth.voices.set i w } rng
      = (render_sample cfg synth rng).map
          (fun r => { r with synth := { r.synth with voices := r.synth.voices.set i w } }) := by
  unfold render_sample
  dsimp only
  rw [render_voices_set_idle cfg _ synth.voices _ i v w h hv hw]
  dsimp only
  cases synth.bus.buf[synth.bus.readPtr]? with
  | none => rfl
  | some d =>
    dsimp only
    cases cfg.SYNTH_USE_DELAY with
    | false => rfl
    | true =>
      simp only [if_true]
      cases bus_store_advance (bus_advance_read synth.bus) _ with
      | none => rfl
      | some fx2 => rfl

theorem synth_render_slice_set_idle (cfg : SynthConfig) (len : Nat) (synth : Synth) (rng : Nat)
    (i : Nat) (v w : SynthVoice) (h : synth.voices[i]? = some v) (hv : v.env.phase = .IDLE)
    (hw : w.env.phase = .IDLE) :
    (∀ s1 rng1 out, synth_render_slice cfg len synth rng = some (s1, rng1, out) →
      s1.voices[i]? = some v) ∧
    synth_render_slice cfg len { synth with voices := synth.voices.set i w } rng
      = (synth_render_slice cfg len synth rng).map
          (fun r => ({ r.1 with voices := r.1.voices.set i w }, r.2.1, r.2.2)) := by
  induction len generalizing synth rng with
  | zero =>
    refine ⟨?_, rfl⟩
    intro s1 rng1 out hs
    rw [synth_render_slice] at hs
    cases hs
    exact h
  | succ n ih =>
    rw [synth_render_slice, synth_render_slice, render_sample_set_idle cfg synth rng i v w h hv hw]
    cases hr : render_sample cfg synth rng with
    | none => exact ⟨fun _ _ _ hs => (by cases hs), rfl⟩
    | some r =>
      have hslot := render_sample_idle_slot cfg synth rng i v h hv r hr
      obtain ⟨ih1, ih2⟩ := ih r.synth r.rng hslot
      dsimp only [Option.map]
      rw [ih2]
      cases hrest : synth_render_slice cfg n r.synth r.rng with
      | none => exact ⟨fun _ _ _ hs => (by cases hs), rfl⟩
      | some q =>
        obtain ⟨q1, q2, q3⟩ := q
        refine ⟨?_, rfl⟩
        intro s1 rng1 out hs
        cases hs
        exact ih1 q1 q2 q3 hrest

/-! ## Silence -/

/-- C17: for every synth state and every `len`, a voice whose envelope phase
is `IDLE` is unchanged in the state `synth_render_slice` returns (envelope,
oscillators and flags alike), and the slice does not depend on the contents
of such a voice: with another idle voice `w` in that slot the slice gives the
same samples, generator state and synth, except that the slot holds `w`. -/
theorem render_slice_skips_idle (cfg : SynthConfig) (len : Nat) (synth : Synth) (rng : Nat)
    (i : Nat) (v w : SynthVoice) (h : synth.voices[i]? = some v) (hv : v.env.phase = .IDLE)
    (hw : w.env.phase = .IDLE) :
    (∀ s1 rng1 out, synth_render_slice cfg len synth rng = some (s1, rng1, out) →
      s1.voices[i]? = some v) ∧
    synth_render_slice cfg len { synth with voices := synth.voices.set i w } rng
      = (synth_render_slice cfg len synth rng).map
          (fun r => ({ r.1 with voices := r.1.voices.set i w }, r.2.1, r.2.2)) ∧
    (BusReady cfg synth.bus → ∃ res, synth_render_slice cfg len synth rng = some res) :=
  ⟨(synth_render_slice_set_idle cfg len synth rng i v w h hv hw).1,
   (synth_render_slice_set_idle cfg len synth rng i v w h hv hw).2,
   fun hready => synth_render_slice_ready cfg len synth rng hready⟩

theorem demoBus_ready (cfg : SynthConfig) : BusReady cfg demoBus := by
  unfold BusReady
  split_ifs
  · exact ⟨2, 0, le_rfl, ⟨rfl, le_rfl, rfl, rfl, rfl, rfl⟩⟩
  · decide

theorem render_slice_skips_idle_witness :
    (∀ s1 rng1 out,
      synth_render_slice demoConfig 3 { zeroSynth 6 with bus := demoBus } 0
        = some (s1, rng1, out) →
      s1.voices[2]? = some zeroVoice) ∧
    synth_render_slice demoConfig 3
        { ({ zeroSynth 6 with bus := demoBus } : Synth) with
          voices := ({ zeroSynth 6 with bus := demoBus } : Synth).voices.set 2
            { zeroVoice with flags := 7 } } 0
      = (synth_render_slice demoConfig 3 { zeroSynth 6 with bus := demoBus } 0).map
          (fun r => ({ r.1 with voices := r.1.voices.set 2 { zeroVoice with flags := 7 } },
                     r.2.1, r.2.2)) ∧
    (BusReady demoConfig ({ zeroSynth 6 with bus := demoBus } : Synth).bus →
      ∃ res, synth_render_slice demoConfig 3 { zeroSynth 6 with bus := demoBus } 0 = some res) :=
  render_slice_skips_idle demoConfig 3 { zeroSynth 6 with bus := demoBus } 0 2 zeroVoice
    { zeroVoice with flags := 7 } rfl rfl rfl

/-! ## Output frames -/

theorem render_step_at_zero (cfg : SynthConfig) (synth : Synth) (rng : Nat) :
    render_step_at cfg 0 synth rng = render_sample cfg synth rng := rfl

theorem render_step_at_succ (cfg : SynthConfig) (k : Nat) (synth : Synth) (rng : Nat)
    (r0 : SampleResult) (h : render_sample cfg synth rng = some r0) :
    render_step_at cfg (k + 1) synth rng = render_step_at cfg k r0.synth r0.rng := by
  unfold render_step_at
  rw [render_run_head, h]

/-- The values a slice writes: two per frame, both the frame value of the
render step of that frame. -/
theorem synth_render_slice_frames (cfg : SynthConfig) (len : Nat) (synth : Synth) (rng : Nat)
    (s1 : Synth) (rng1 : Nat) (out : List Int)
    (h : synth_render_slice cfg len synth rng = some (s1, rng1, out)) :
    out.length = 2 * len ∧
    ∀ k, k < len → ∃ r, render_step_at cfg k synth rng = some r ∧
      out[2 * k]? = some r.frame ∧ out[2 * k + 1]? = some r.frame := by
  induction len generalizing synth rng out with
  | zero =>
    rw [synth_render_slice] at h
    cases h
    exact ⟨rfl, fun k hk => absurd hk (Nat.not_lt_zero _)⟩
  | succ n ih =>
    rw [synth_render_slice] at h
    cases hr : render_sample cfg synth rng with
    | none => rw [hr] at h; cases h
    | some r0 =>
      rw [hr] at h
      dsimp only at h
      cases hrest : synth_render_slice cfg n r0.synth r0.rng with
      | none => rw [hrest] at h; cases h
      | some q =>
        obtain ⟨q1, q2, q3⟩ := q
        rw [hrest] at h
        cases h
        obtain ⟨hlen, hfr⟩ := ih r0.synth r0.rng q3 hrest
        refine ⟨by simp [hlen]; omega, ?_⟩
        intro k hk
        cases k with
        | zero => exact ⟨r0, by rw [render_step_at_zero, hr], by simp, by simp⟩
        | succ j =>
          obtain ⟨r, a1, a2, a3⟩ := hfr j (by omega)
          refine ⟨r, by rw [render_step_at_succ cfg j synth rng r0 hr]; exact a1, ?_, ?_⟩
          · rw [show 2 * (j + 1) = 2 * j + 1 + 1 by ring, List.getElem?_cons_succ,
              List.getElem?_cons_succ]
            exact a2
          · rw [show 2 * (j + 1) + 1 = 2 * j + 1 + 1 + 1 by ring, List.getElem?_cons_succ,
              List.getElem?_cons_succ]
            exact a3

/-- C18: for every synth state and every `len`, when `synth_render_slice`
returns it has written exactly `2 * len` values, and frame `k` has identical
left and right slots, both equal to `(L + R) / 2` (C division, truncating
toward zero) of the two clipped accumulators of render step `k`; it returns
whenever the bus is ready. -/
theorem render_slice_frames_mono (cfg : SynthConfig) (len : Nat) (synth : Synth) (rng : Nat) :
    (∀ s1 rng1 out, synth_render_slice cfg len synth rng = some (s1, rng1, out) →
      out.length = 2 * len ∧
      ∀ k, k < len → ∃ st r l rr,
        render_run cfg k synth rng = some st ∧
        render_sample cfg st.1 st.2 = some r ∧
        render_sums cfg st.1 st.2 = some (l, rr) ∧
        r.frame = (clamp16 l + clamp16 rr).tdiv 2 ∧
        out[2 * k]? = some r.frame ∧ out[2 * k + 1]? = some r.frame) ∧
    (BusReady cfg synth.bus → ∃ res, synth_render_slice cfg len synth rng = some res) := by
  refine ⟨?_, fun hready => synth_render_slice_ready cfg len synth rng hready⟩
  intro s1 rng1 out h
  obtain ⟨hlen, hfr⟩ := synth_render_slice_frames cfg len synth rng s1 rng1 out h
  refine ⟨hlen, ?_⟩
  intro k hk
  obtain ⟨r, a1, a2, a3⟩ := hfr k hk
  unfold render_step_at at a1
  cases hrun : render_run cfg k synth rng with
  | none => rw [hrun] at a1; cases a1
  | some st =>
    rw [hrun] at a1
    obtain ⟨l, rr, b1, b2, _⟩ := render_sample_frame cfg st.1 st.2 r a1
    exact ⟨st, r, l, rr, rfl, a1, b1, b2, a2, a3⟩

theorem render_slice_frames_mono_witness :
    (∀ s1 rng1 out,
      synth_render_slice demoConfig 3 { zeroSynth 6 with bus := demoBus } 0
        = some (s1, rng1, out) →
      out.length = 2 * 3 ∧
      ∀ k, k < 3 → ∃ st r l rr,
        render_run demoConfig k { zeroSynth 6 with bus := demoBus } 0 = some st ∧
        render_sample demoConfig st.1 st.2 = some r ∧
        render_sums demoConfig st.1 st.2 = some (l, rr) ∧
        r.frame = (clamp16 l + clamp16 rr).tdiv 2 ∧
        out[2 * k]? = some r.frame ∧ out[2 * k + 1]? = some r.frame) ∧
    (BusReady demoConfig ({ zeroSynth 6 with bus := demoBus } : Synth).bus →
      ∃ res, synth_render_slice demoConfig 3 { zeroSynth 6 with bus := demoBus } 0 = some res) :=
  render_slice_frames_mono demoConfig 3 { zeroSynth 6 with bus := demoBus } 0

/-! ## Mixing: two concrete samples -/

theorem loudVoice_contribution (acc : MixAcc) :
    (render_voice demoConfig 1 loudVoice acc).2
      = { sumL := wrap16 (acc.sumL + 19660), sumR := wrap16 (acc.sumR + 0), rng := acc.rng } := by
  simp [render_voice, loudVoice, synth_adsr_init, synth_adsr_update, osc_call, osc_apply,
    synth_osc_init, synth_osc_rect, synth_osc_nop, truncPhase, stepf, float_to_int16,
    demoConfig, synth_voice_init, zeroVoice, zeroOsc]
  norm_num [wrap16]

theorem loudSynth_envMod (rng : Nat) :
    (osc_call demoConfig loudSynth.lfoEnvMod 0 0 rng).1 = 1 ∧
    (osc_call demoConfig loudSynth.lfoEnvMod 0 0 rng).2.2 = rng := by
  simp [osc_call, osc_apply, loudSynth, synth_osc_init, synth_osc_sin_dc, maddf, demoConfig,
    zeroOsc]

theorem render_voices_cons_acc (cfg : SynthConfig) (envMod : ℚ) (v : SynthVoice)
    (vs : List SynthVoice) (acc : MixAcc) :
    (render_voices cfg envMod (v :: vs) acc).2
      = (render_voice cfg envMod v (render_voices cfg envMod vs acc).2).2 := rfl

theorem zeroVoices_idle : ∀ v ∈ [zeroVoice, zeroVoice, zeroVoice, zeroVoice],
    v.env.phase = .IDLE := by
  intro v hv
  simp only [List.mem_cons, List.mem_singleton, List.not_mem_nil, or_false, or_self] at hv
  rw [hv]
  rfl

theorem loudSynth_sums : render_sums demoConfig loudSynth 0 = some (-26216, 0) := by
  unfold render_sums
  have hbuf : loudSynth.bus.buf[loudSynth.bus.readPtr]? = some 0 := rfl
  rw [hbuf]
  dsimp only
  rw [(loudSynth_envMod 0).1, (loudSynth_envMod 0).2]
  show some (wrap16 ((render_voices demoConfig 1
      [loudVoice, loudVoice, zeroVoice, zeroVoice, zeroVoice, zeroVoice]
      { sumL := 0, sumR := 0, rng := 0 }).2.sumL + 0),
    wrap16 ((render_voices demoConfig 1
      [loudVoice, loudVoice, zeroVoice, zeroVoice, zeroVoice, zeroVoice]
      { sumL := 0, sumR := 0, rng := 0 }).2.sumR + 0)) = some (-26216, 0)
  rw [render_voices_cons_acc, render_voices_cons_acc,
    render_voices_all_idle demoConfig 1 _ _ zeroVoices_idle, loudVoice_contribution,
    loudVoice_contribution]
  decide

theorem leftSynth_sums : render_sums demoConfig leftSynth 0 = some (19660, 0) := by
  unfold render_sums
  have hbuf : leftSynth.bus.buf[leftSynth.bus.readPtr]? = some 0 := rfl
  have hmod : leftSynth.lfoEnvMod = loudSynth.lfoEnvMod := rfl
  rw [hbuf, hmod]
  dsimp only
  rw [(loudSynth_envMod 0).1, (loudSynth_envMod 0).2]
  show some (wrap16 ((render_voices demoConfig 1
      [loudVoice, zeroVoice, zeroVoice, zeroVoice, zeroVoice, zeroVoice]
      { sumL := 0, sumR := 0, rng := 0 }).2.sumL + 0),
    wrap16 ((render_voices demoConfig 1
      [loudVoice, zeroVoice, zeroVoice, zeroVoice, zeroVoice, zeroVoice]
      { sumL := 0, sumR := 0, rng := 0 }).2.sumR + 0)) = some (19660, 0)
  rw [render_voices_cons_acc,
    render_voices_all_idle demoConfig 1 [zeroVoice, zeroVoice, zeroVoice, zeroVoice, zeroVoice] _
      (by intro v hv
          simp only [List.mem_cons, List.mem_singleton, List.not_mem_nil, or_false,
            or_self] at hv
          rw [hv]; rfl),
    loudVoice_contribution]
  decide

/-- C12: the accumulators wrap instead of saturating. In `loudSynth` two
voices each contribute 19660 to the left accumulator and the delayed sample
is 0; the left accumulator after the clip step is -26216 (39320 reduced
modulo 2^16), not the saturated sum 32767, and the frame written is -13108.
The accumulators are `int16_t`, so each `+=` has already wrapped when
`clamp16` is applied. -/
theorem render_accumulator_wraps :
    (render_voice demoConfig 1 loudVoice { sumL := 0, sumR := 0, rng := 0 }).2.sumL = 19660 ∧
    loudSynth.bus.buf[loudSynth.bus.readPtr]? = some 0 ∧
    render_sums demoConfig loudSynth 0 = some (-26216, 0) ∧
    clamp16 (-26216) = -26216 ∧
    clamp16 (19660 + 19660 + 0) = 32767 ∧
    ∃ r, render_sample demoConfig loudSynth 0 = some r ∧ r.frame = -13108 := by
  refine ⟨by rw [loudVoice_contribution]; decide, rfl, loudSynth_sums, by decide, by decide, ?_⟩
  obtain ⟨r, hr, _⟩ := render_sample_ready demoConfig loudSynth 0 (demoBus_ready demoConfig)
  obtain ⟨l, rr, h1, h2, _⟩ := render_sample_frame demoConfig loudSynth 0 r hr
  rw [loudSynth_sums] at h1
  cases h1
  exact ⟨r, hr, by rw [h2]; decide⟩

/-- C13: the value stored at the write cursor is not the shifted sum of the
two accumulators. In `leftSynth` the accumulators before clipping are 19660
and 0 and `decay` is 2, so `(left + right) >> decay` is 4915; the render step
writes the frame 9830 and stores 2457, which is `(9830 + 0) >> 2`: `sumL` was
overwritten with the downmix before the store. -/
theorem delay_store_uses_downmix :
    render_sums demoConfig leftSynth 0 = some (19660, 0) ∧
    leftSynth.bus.decay = 2 ∧
    wrap16 ((19660 + 0) >>> 2) = 4915 ∧
    ∃ r, render_sample demoConfig leftSynth 0 = some r ∧ r.frame = 9830 ∧
      r.stored = some 2457 := by
  refine ⟨leftSynth_sums, rfl, by decide, ?_⟩
  obtain ⟨r, hr, _⟩ := render_sample_ready demoConfig leftSynth 0 (demoBus_ready demoConfig)
  obtain ⟨l, rr, h1, h2, h3, _⟩ := render_sample_frame demoConfig leftSynth 0 r hr
  rw [leftSynth_sums] at h1
  cases h1
  have hf : r.frame = 9830 := by rw [h2]; decide
  refine ⟨r, hr, hf, ?_⟩
  rw [h3 rfl, hf]
  decide

/-! ## Envelope modulation left at zero -/

theorem osc_call_nop (cfg : SynthConfig) (osc : SynthOsc) (h : osc.fn = .nop)
    (lfo lfo2 : ℚ) (rng : Nat) : osc_call cfg osc lfo lfo2 rng = (osc.dcOffset, osc, rng) := by
  unfold osc_call
  rw [h]
  rfl

theorem adsr_update_attack_zero (env : ADSR) (hp : env.phase = .ATTACK)
    (hlt : env.currGain < env.attackGain) : synth_adsr_update env 0 = (env.currGain, env) := by
  rw [adsr_update_attack_below env 0 hp hlt]
  simp

theorem render_voice_env (cfg : SynthConfig) (envMod : ℚ) (voice : SynthVoice) (acc : MixAcc) :
    (render_voice cfg envMod voice acc).1.env
      = if voice.env.phase ≠ .IDLE then (synth_adsr_update voice.env envMod).2
        else voice.env := by
  unfold render_voice
  split_ifs <;> rfl

theorem render_sample_attack_frozen (cfg : SynthConfig) (synth : Synth) (rng : Nat) (i : Nat)
    (E : ADSR) (r : SampleResult) (hfn : synth.lfoEnvMod.fn = .nop)
    (hdc : synth.lfoEnvMod.dcOffset = 0)
    (hv : ∃ v, synth.voices[i]? = some v ∧ v.env = E) (hp : E.phase = .ATTACK)
    (hlt : E.currGain < E.attackGain) (hr : render_sample cfg synth rng = some r) :
    r.synth.lfoEnvMod = synth.lfoEnvMod ∧ ∃ v1, r.synth.voices[i]? = some v1 ∧ v1.env = E := by
  obtain ⟨v, hv1, hv2⟩ := hv
  obtain ⟨_, _, _, _, _, _, _, _, hmod, hvoices⟩ := render_sample_frame cfg synth rng r hr
  rw [osc_call_nop cfg synth.lfoEnvMod hfn] at hmod hvoices
  refine ⟨hmod, ?_⟩
  obtain ⟨acc1, h1⟩ := render_voices_getElem cfg synth.lfoEnvMod.dcOffset synth.voices
    { sumL := 0, sumR := 0, rng := rng } i v hv1
  refine ⟨_, by rw [hvoices]; exact h1, ?_⟩
  rw [render_voice_env, hv2, hdc, if_pos (by rw [hp]; decide), adsr_update_attack_zero E hp hlt]

theorem synth_render_slice_attack_frozen (cfg : SynthConfig) (len : Nat) (synth : Synth)
    (rng : Nat) (i : Nat) (E : ADSR) (hfn : synth.lfoEnvMod.fn = .nop)
    (hdc : synth.lfoEnvMod.dcOffset = 0)
    (hv : ∃ v, synth.voices[i]? = some v ∧ v.env = E) (hp : E.phase = .ATTACK)
    (hlt : E.currGain < E.attackGain) (s1 : Synth) (rng1 : Nat) (out : List Int)
    (hs : synth_render_slice cfg len synth rng = some (s1, rng1, out)) :
    s1.lfoEnvMod = synth.lfoEnvMod ∧ ∃ v1, s1.voices[i]? = some v1 ∧ v1.env = E := by
  induction len generalizing synth rng out with
  | zero =>
    rw [synth_render_slice] at hs
    cases hs
    exact ⟨rfl, hv⟩
  | succ n ih =>
    rw [synth_render_slice] at hs
    cases hr : render_sample cfg synth rng with
    | none => rw [hr] at hs; cases hs
    | some r0 =>
      rw [hr] at hs
      dsimp only at hs
      obtain ⟨hmod, hv0⟩ := render_sample_attack_frozen cfg synth rng i E r0 hfn hdc hv hp hlt hr
      cases hrest : synth_render_slice cfg n r0.synth r0.rng with
      | none => rw [hrest] at hs; cases hs
      | some q =>
        obtain ⟨q1, q2, q3⟩ := q
        rw [hrest] at hs
        cases hs
        obtain ⟨a1, a2⟩ := ih r0.synth r0.rng (by rw [hmod]; exact hfn) (by rw [hmod]; exact hdc)
          hv0 q3 hrest
        exact ⟨a1.trans hmod, a2⟩

theorem synth_init_lfoEnvMod (cfg : SynthConfig) (mem : Synth) (cell : Int)
    (hP : 0 < cfg.SYNTH_POLYPHONY) (hlen : mem.voices.length = cfg.SYNTH_POLYPHONY) :
    ∃ s0 rng0, synth_init cfg mem cell = some (s0, rng0) ∧
      s0.lfoEnvMod.fn = .nop ∧ s0.lfoEnvMod.dcOffset = 0 := by
  obtain ⟨s1, h1, _, _⟩ := synth_init_loop_spec cfg cfg.SYNTH_POLYPHONY
    { mem with nextVoice := 0 } hlen hP
  unfold synth_init
  rw [h1]
  exact ⟨_, _, rfl, rfl, rfl⟩

/-- C20: `synth_init` leaves `lfoEnvMod` the no-op oscillator with DC offset
0, whose value is 0 on every call and which a call leaves as it is; with
`envMod = 0` an envelope in `ATTACK` with `currGain < attackGain` is a fixed
point of `synth_adsr_update`; and in every synth state that still has that
`lfoEnvMod`, a voice whose envelope is `synth_adsr_init` with `attackGain > 0`
(and `ADSR_SCALE > 0`) has the same envelope, in `ATTACK` with `currGain = 0`,
after any number of rendered samples, with `lfoEnvMod` unchanged; the slice
returns whenever the bus is ready. -/
theorem attack_frozen_after_synth_init (cfg : SynthConfig) (hS : 0 < cfg.ADSR_SCALE)
    (hP : 0 < cfg.SYNTH_POLYPHONY) (mem : Synth) (cell : Int)
    (hlen : mem.voices.length = cfg.SYNTH_POLYPHONY)
    (attRate decayRate releaseRate attGain sustainGain : ℚ) (hg : 0 < attGain) :
    ∃ s0 rng0, synth_init cfg mem cell = some (s0, rng0) ∧
      s0.lfoEnvMod.fn = .nop ∧ s0.lfoEnvMod.dcOffset = 0 ∧
      (∀ rng, osc_call cfg s0.lfoEnvMod 0 0 rng = (0, s0.lfoEnvMod, rng)) ∧
      (∀ env : ADSR, env.phase = .ATTACK → env.currGain < env.attackGain →
        synth_adsr_update env 0 = (env.currGain, env)) ∧
      (∀ (synth : Synth) (rng len i : Nat) (v : SynthVoice),
        synth.lfoEnvMod = s0.lfoEnvMod → synth.voices[i]? = some v →
        v.env = synth_adsr_init cfg attRate decayRate releaseRate attGain sustainGain →
        (∀ s1 rng1 out, synth_render_slice cfg len synth rng = some (s1, rng1, out) →
          s1.lfoEnvMod = s0.lfoEnvMod ∧
          ∃ v1, s1.voices[i]? = some v1 ∧
            v1.env = synth_adsr_init cfg attRate decayRate releaseRate attGain sustainGain ∧
            v1.env.phase = .ATTACK ∧ v1.env.currGain = 0) ∧
        (BusReady cfg synth.bus → ∃ res, synth_render_slice cfg len synth rng = some res)) := by
  obtain ⟨s0, rng0, h0, hfn, hdc⟩ := synth_init_lfoEnvMod cfg mem cell hP hlen
  refine ⟨s0, rng0, h0, hfn, hdc, ?_, ?_, ?_⟩
  · intro rng
    rw [osc_call_nop cfg s0.lfoEnvMod hfn, hdc]
  · intro env hp hlt
    exact adsr_update_attack_zero env hp hlt
  · intro synth rng len i v hmod hv henv
    refine ⟨?_, fun hready => synth_render_slice_ready cfg len synth rng hready⟩
    intro s1 rng1 out hs
    have hlt : (synth_adsr_init cfg attRate decayRate releaseRate attGain sustainGain).currGain
        < (synth_adsr_init cfg attRate decayRate releaseRate attGain sustainGain).attackGain :=
      mul_pos hg hS
    obtain ⟨a1, v1, a2, a3⟩ := synth_render_slice_attack_frozen cfg len synth rng i
      (synth_adsr_init cfg attRate decayRate releaseRate attGain sustainGain)
      (by rw [hmod]; exact hfn) (by rw [hmod]; exact hdc) ⟨v, hv, henv⟩ rfl hlt s1 rng1 out hs
    exact ⟨a1.trans hmod, v1, a2, a3, by rw [a3]; rfl, by rw [a3]; rfl⟩

theorem attack_frozen_after_synth_init_witness :
    ∃ s0 rng0, synth_init demoConfig (zeroSynth 6) 0 = some (s0, rng0) ∧
      s0.lfoEnvMod.fn = .nop ∧ s0.lfoEnvMod.dcOffset = 0 ∧
      (∀ rng, osc_call demoConfig s0.lfoEnvMod 0 0 rng = (0, s0.lfoEnvMod, rng)) ∧
      (∀ env : ADSR, env.phase = .ATTACK → env.currGain < env.attackGain →
        synth_adsr_update env 0 = (env.currGain, env)) ∧
      (∀ (synth : Synth) (rng len i : Nat) (v : SynthVoice),
        synth.lfoEnvMod = s0.lfoEnvMod → synth.voices[i]? = some v →
        v.env = synth_adsr_init demoConfig (1 / 4) (1 / 100) (1 / 100) 1 (1 / 2) →
        (∀ s1 rng1 out, synth_render_slice demoConfig len synth rng = some (s1, rng1, out) →
          s1.lfoEnvMod = s0.lfoEnvMod ∧
          ∃ v1, s1.voices[i]? = some v1 ∧
            v1.env = synth_adsr_init demoConfig (1 / 4) (1 / 100) (1 / 100) 1 (1 / 2) ∧
            v1.env.phase = .ATTACK ∧ v1.env.currGain = 0) ∧
        (BusReady demoConfig synth.bus →
          ∃ res, synth_render_slice demoConfig len synth rng = some res)) :=
  attack_frozen_after_synth_init demoConfig (by norm_num [demoConfig]) (by decide)
    (zeroSynth 6) 0 (by simp [zeroSynth, demoConfig]) (1 / 4) (1 / 100) (1 / 100) 1 (1 / 2)
    (by norm_num)

/-! ## Envelope: every note ends -/

end DiySynth
